import Mathlib

/-!
Verification of the rate-limited invocation governor of the miovo library:
the debounce wrapper (src/debounce.ts) and the throttle wrapper.

The embedding is a shallow translation of the two TypeScript closures into
explicit state-passing Lean functions.  Times are integers (millisecond
timestamps).  A scheduled timeout is modelled by the value pair
(absolute due time, callback kind); the `live` list of a system state holds
every timer that has been scheduled by setTimeout and neither fired nor been
cleared by clearTimeout, in creation order.  The closure variables `timeout`
and `maxTimeout` hold such a value (or none), exactly like the handles in the
source; overwriting the variable without clearTimeout leaves the old timer in
`live`, as in the JavaScript runtime.  Each invocation of the wrapped
function is recorded in a ghost log as (time, arguments).
-/

namespace Miovo

/-- The two callbacks a debounce timer can run: timerExpired (primary) or
maxTimerExpired (escape). -/
inductive TKind where
  | primary
  | escape
deriving DecidableEq, Repr

/-- A scheduled timeout: its absolute due time and which callback it runs. -/
structure Timer where
  due : Int
  kind : TKind
deriving DecidableEq, Repr

/-- The closure variables of the debounce wrapper (src/debounce.ts lines
119-125).  lastThis is not modelled (the receiver plays no role in any
claim); `result` caches the last return value of the wrapped function. -/
structure Gov (A R : Type) where
  timeout : Option Timer
  maxTimeout : Option Timer
  lastArgs : Option A
  result : Option R
  lastCallTime : Option Int
  lastInvokeTime : Int
deriving DecidableEq, Repr

/-- A debounce system state: the closure variables, the scheduled-uncancelled
timers (in creation order), and a ghost log of invocations (time, args). -/
structure Sys (A R : Type) where
  gov : Gov A R
  live : List Timer
  log : List (Int × A)
deriving DecidableEq, Repr

/-- clearTimeout: removes the first occurrence of a timer value from the live
list; a no-op when the timer already fired or was already cleared. -/
def eraseFirst : List Timer → Timer → List Timer
  | [], _ => []
  | t :: ts, tm => if t = tm then ts else t :: eraseFirst ts tm

/-- The state of a freshly constructed wrapper. -/
def dInit {A R : Type} : Sys A R :=
  ⟨⟨none, none, none, none, none, 0⟩, [], []⟩

/-- Configuration bound at construction: wait, maxWait, leading, trailing. -/
structure DebCfg where
  wait : Int
  maxWait : Option Int
  leading : Bool
  trailing : Bool
deriving DecidableEq, Repr

variable {A R : Type}

/-- invokeFunc (debounce.ts lines 127-136): clears lastArgs/lastThis, sets
lastInvokeTime, then applies func and caches the result.  The none branch is
unreachable: every call site has just set or tested lastArgs. -/
def invokeFunc (f : A → R) (time : Int) (s : Sys A R) : Sys A R :=
  match s.gov.lastArgs with
  | some args =>
      { s with
        gov := { s.gov with
          lastArgs := none, lastInvokeTime := time,
          result := some (f args) },
        log := s.log ++ [(time, args)] }
  | none => s

/-- shouldInvoke (debounce.ts lines 138-148).  JavaScript's
(lastCallTime || 0) yields 0 both for null and for 0; Option.getD 0 agrees. -/
def shouldInvoke (cfg : DebCfg) (g : Gov A R) (time : Int) : Bool :=
  let timeSinceLastCall := time - g.lastCallTime.getD 0
  let timeSinceLastInvoke := time - g.lastInvokeTime
  g.lastCallTime.isNone || decide (timeSinceLastCall ≥ cfg.wait) ||
    decide (timeSinceLastCall < 0) ||
    (match cfg.maxWait with
     | some mw => decide (timeSinceLastInvoke ≥ mw)
     | none => false)

/-- timeout = setTimeout(timerExpired, d): appends a fresh primary timer due
at the given absolute time and overwrites the timeout variable, without
cancelling whatever timer the variable previously held. -/
def schedPrimary (due : Int) (s : Sys A R) : Sys A R :=
  { s with live := s.live ++ [⟨due, TKind.primary⟩],
           gov := { s.gov with timeout := some ⟨due, TKind.primary⟩ } }

/-- maxTimeout = setTimeout(maxTimerExpired, maxWait). -/
def schedEscape (due : Int) (s : Sys A R) : Sys A R :=
  { s with live := s.live ++ [⟨due, TKind.escape⟩],
           gov := { s.gov with maxTimeout := some ⟨due, TKind.escape⟩ } }

/-- remainingWait (debounce.ts lines 161-171). -/
def remainingWait (cfg : DebCfg) (g : Gov A R) (time : Int) : Int :=
  let timeSinceLastCall := time - g.lastCallTime.getD 0
  let timeSinceLastInvoke := time - g.lastInvokeTime
  let timeWaiting := cfg.wait - timeSinceLastCall
  match cfg.maxWait with
  | some mw => min timeWaiting (mw - timeSinceLastInvoke)
  | none => timeWaiting

/-- trailingEdge (debounce.ts lines 188-203): nulls the timeout variable
(without clearTimeout), clears the escape timer, and invokes when trailing
and lastArgs are set, else just clears lastArgs. -/
def trailingEdge (cfg : DebCfg) (f : A → R) (time : Int) (s : Sys A R) :
    Sys A R :=
  let s1 : Sys A R := { s with gov := { s.gov with timeout := none } }
  let s2 : Sys A R :=
    match s1.gov.maxTimeout with
    | some mt =>
        { s1 with live := eraseFirst s1.live mt,
                  gov := { s1.gov with maxTimeout := none } }
    | none => s1
  if cfg.trailing && s2.gov.lastArgs.isSome then invokeFunc f time s2
  else { s2 with gov := { s2.gov with lastArgs := none } }

/-- leadingEdge (debounce.ts lines 150-159). -/
def leadingEdge (cfg : DebCfg) (f : A → R) (time : Int) (s : Sys A R) :
    Sys A R :=
  let s1 : Sys A R := { s with gov := { s.gov with lastInvokeTime := time } }
  let s2 := schedPrimary (time + cfg.wait) s1
  let s3 :=
    match cfg.maxWait with
    | some mw => schedEscape (time + mw) s2
    | none => s2
  if cfg.leading then invokeFunc f time s3 else s3

/-- timerExpired (debounce.ts lines 173-180), run at the moment `time`. -/
def timerExpired (cfg : DebCfg) (f : A → R) (time : Int) (s : Sys A R) :
    Sys A R :=
  if shouldInvoke cfg s.gov time then trailingEdge cfg f time s
  else schedPrimary (time + remainingWait cfg s.gov time) s

/-- maxTimerExpired (debounce.ts lines 182-186). -/
def maxTimerExpired (cfg : DebCfg) (f : A → R) (time : Int) (s : Sys A R) :
    Sys A R :=
  if s.gov.lastArgs.isSome && cfg.trailing then trailingEdge cfg f time s
  else s

/-- cancel (debounce.ts lines 205-218): clearTimeout on both handles, then
reset all bookkeeping. -/
def dCancel (s : Sys A R) : Sys A R :=
  let s1 : Sys A R :=
    match s.gov.timeout with
    | some tm => { s with live := eraseFirst s.live tm }
    | none => s
  let s2 : Sys A R :=
    match s1.gov.maxTimeout with
    | some tm => { s1 with live := eraseFirst s1.live tm }
    | none => s1
  { s2 with gov := { s2.gov with
      lastInvokeTime := 0, lastArgs := none,
      lastCallTime := none, timeout := none,
      maxTimeout := none } }

/-- flush (debounce.ts lines 220-222). -/
def dFlush (cfg : DebCfg) (f : A → R) (time : Int) (s : Sys A R) : Sys A R :=
  if s.gov.timeout.isNone && s.gov.maxTimeout.isNone then s
  else trailingEdge cfg f time s

/-- pending (debounce.ts lines 224-226). -/
def dPending (s : Sys A R) : Bool := s.gov.timeout.isSome

/-- The debounced wrapper itself (debounce.ts lines 228-253).  The three
branches mirror the source: leadingEdge when invoking from idle; the maxWait
branch schedules a fresh primary timer (overwriting the live one) and invokes
immediately; otherwise fall through to the trailing scheduling check. -/
def debounced (cfg : DebCfg) (f : A → R) (time : Int) (args : A)
    (s : Sys A R) : Sys A R :=
  let isInvoking := shouldInvoke cfg s.gov time
  let s1 : Sys A R :=
    { s with gov := { s.gov with
        lastArgs := some args,
        lastCallTime := some time } }
  if isInvoking && s1.gov.timeout.isNone then leadingEdge cfg f time s1
  else if isInvoking && cfg.maxWait.isSome then
    invokeFunc f time (schedPrimary (time + cfg.wait) s1)
  else if s1.gov.timeout.isNone then schedPrimary (time + cfg.wait) s1
  else s1

/-- Externally observable events of a debounce system: a call to the wrapper,
the host runtime firing a scheduled timer at time t (a fire of a timer that
is not live, or before its due time, is impossible and leaves the state
unchanged), a flush, or a cancel. -/
inductive Ev (A : Type) where
  | call (t : Int) (args : A)
  | fire (t : Int) (tm : Timer)
  | flushEv (t : Int)
  | cancelEv
deriving DecidableEq, Repr

/-- One event step of the debounce system. -/
def dStep (cfg : DebCfg) (f : A → R) (s : Sys A R) : Ev A → Sys A R
  | Ev.call t a => debounced cfg f t a s
  | Ev.fire t tm =>
      if tm ∈ s.live ∧ tm.due ≤ t then
        let s1 : Sys A R := { s with live := eraseFirst s.live tm }
        match tm.kind with
        | TKind.primary => timerExpired cfg f t s1
        | TKind.escape => maxTimerExpired cfg f t s1
      else s
  | Ev.flushEv t => dFlush cfg f t s
  | Ev.cancelEv => dCancel s

/-- Run a list of events. -/
def dRun (cfg : DebCfg) (f : A → R) (s : Sys A R) : List (Ev A) → Sys A R
  | [] => s
  | e :: es => dRun cfg f (dStep cfg f s e) es

/-- The earliest live timer: minimal due time, ties broken by creation order
(as the host runtime fires same-deadline timers in creation order). -/
def earliest : List Timer → Option Timer
  | [] => none
  | tm :: rest =>
      match earliest rest with
      | none => some tm
      | some tm2 => if tm.due ≤ tm2.due then some tm else some tm2

/-- Punctual timer delivery: fire every live timer that is due at or before
moment t, each at exactly its due time, earliest first.  fuel bounds the
number of deliveries; unconsumed fuel is harmless. -/
def fireDue (cfg : DebCfg) (f : A → R) : Nat → Int → Sys A R → Sys A R
  | 0, _, s => s
  | fuel + 1, t, s =>
      match earliest s.live with
      | some tm =>
          if tm.due ≤ t then
            fireDue cfg f fuel t (dStep cfg f s (Ev.fire tm.due tm))
          else s
      | none => s

/-- Process a schedule of calls in time order, delivering due timers
punctually before each call. -/
def runCalls (cfg : DebCfg) (f : A → R) (fuel : Nat) :
    List (Int × A) → Sys A R → Sys A R
  | [], s => s
  | (t, a) :: rest, s =>
      runCalls cfg f fuel rest (debounced cfg f t a (fireDue cfg f fuel t s))

/-- After the last call, deliver the remaining timers punctually. -/
def drain (cfg : DebCfg) (f : A → R) : Nat → Sys A R → Sys A R
  | 0, s => s
  | fuel + 1, s =>
      match earliest s.live with
      | some tm => drain cfg f fuel (dStep cfg f s (Ev.fire tm.due tm))
      | none => s

/-- The punctual run of a call schedule from the initial state: all calls in
order, timers firing exactly at their deadlines, then quiescence. -/
def runPunctual (cfg : DebCfg) (f : A → R) (fuel : Nat)
    (calls : List (Int × A)) : Sys A R :=
  drain cfg f fuel (runCalls cfg f fuel calls dInit)

/-!
Exception-raising invocations.  The wrapped function is modelled as
A → Option R, returning none when it throws.  The source performs every
bookkeeping mutation (clearing lastArgs/lastThis, setting lastInvokeTime)
before func.apply, and every call to invokeFunc is in tail position, so a
throw skips only the assignment to result.  The Bool of the returned pair
records whether the invocation threw.
-/

/-- invokeFunc when the wrapped function may throw: the clears and the
lastInvokeTime update precede the application (debounce.ts 131-134), so they
survive a throw; only the result caching is skipped. -/
def invokeFuncE (f : A → Option R) (time : Int) (s : Sys A R) :
    Sys A R × Bool :=
  match s.gov.lastArgs with
  | some args =>
      let g1 : Gov A R :=
        { s.gov with lastArgs := none, lastInvokeTime := time }
      match f args with
      | some r =>
          ({ s with gov := { g1 with result := some r },
                    log := s.log ++ [(time, args)] }, false)
      | none =>
          ({ s with gov := g1, log := s.log ++ [(time, args)] }, true)
  | none => (s, false)

/-- trailingEdge when the wrapped function may throw: the timer bookkeeping
precedes the invocation, and the invocation is the tail of the function. -/
def trailingEdgeE (cfg : DebCfg) (f : A → Option R) (time : Int)
    (s : Sys A R) : Sys A R × Bool :=
  let s1 : Sys A R := { s with gov := { s.gov with timeout := none } }
  let s2 : Sys A R :=
    match s1.gov.maxTimeout with
    | some mt =>
        { s1 with live := eraseFirst s1.live mt,
                  gov := { s1.gov with maxTimeout := none } }
    | none => s1
  if cfg.trailing && s2.gov.lastArgs.isSome then invokeFuncE f time s2
  else ({ s2 with gov := { s2.gov with lastArgs := none } }, false)

end Miovo

/-!
The throttle wrapper.  Same closure shape as debounce but with a single
timer kind (timerExpired), no maxWait, and a shouldInvoke that also fires
when the time since the last invocation reaches the window.
-/

namespace Throttle

/-- The closure variables of the throttle wrapper (lastThis not modelled). -/
structure Gov (A R : Type) where
  timeout : Option Int
  lastArgs : Option A
  result : Option R
  lastCallTime : Option Int
  lastInvokeTime : Int
deriving DecidableEq, Repr

/-- A throttle system state: closure variables, due times of the scheduled
uncancelled timers (in creation order), and the ghost invocation log. -/
structure Sys (A R : Type) where
  gov : Gov A R
  live : List Int
  log : List (Int × A)
deriving DecidableEq, Repr

/-- clearTimeout for throttle timers (identified by due time). -/
def eraseFirst : List Int → Int → List Int
  | [], _ => []
  | t :: ts, d => if t = d then ts else t :: eraseFirst ts d

/-- The state of a freshly constructed throttled wrapper. -/
def tInit {A R : Type} : Sys A R :=
  ⟨⟨none, none, none, none, 0⟩, [], []⟩

variable {A R : Type}

/-- invokeFunc of the throttle source: identical statement order to the
debounce version. -/
def invokeFunc (f : A → R) (time : Int) (s : Sys A R) : Sys A R :=
  match s.gov.lastArgs with
  | some args =>
      { s with
        gov := { s.gov with
          lastArgs := none, lastInvokeTime := time,
          result := some (f args) },
        log := s.log ++ [(time, args)] }
  | none => s

/-- shouldInvoke of the throttle source: additionally true whenever the time
since the last invocation reaches the window. -/
def shouldInvoke (wait : Int) (g : Gov A R) (time : Int) : Bool :=
  let timeSinceLastCall := time - g.lastCallTime.getD 0
  let timeSinceLastInvoke := time - g.lastInvokeTime
  g.lastCallTime.isNone || decide (timeSinceLastCall ≥ wait) ||
    decide (timeSinceLastCall < 0) || decide (timeSinceLastInvoke ≥ wait)

/-- timeout = setTimeout(timerExpired, d) in the throttle source. -/
def schedTimer (due : Int) (s : Sys A R) : Sys A R :=
  { s with live := s.live ++ [due],
           gov := { s.gov with timeout := some due } }

/-- remainingWait of the throttle source. -/
def remainingWait (wait : Int) (g : Gov A R) (time : Int) : Int :=
  let timeSinceLastCall := time - g.lastCallTime.getD 0
  let timeSinceLastInvoke := time - g.lastInvokeTime
  let timeWaiting := wait - timeSinceLastCall
  min timeWaiting (wait - timeSinceLastInvoke)

/-- trailingEdge of the throttle source. -/
def trailingEdge (trailing : Bool) (f : A → R) (time : Int) (s : Sys A R) :
    Sys A R :=
  let s1 : Sys A R := { s with gov := { s.gov with timeout := none } }
  if trailing && s1.gov.lastArgs.isSome then invokeFunc f time s1
  else { s1 with gov := { s1.gov with lastArgs := none } }

/-- leadingEdge of the throttle source. -/
def leadingEdge (wait : Int) (leading : Bool) (f : A → R) (time : Int)
    (s : Sys A R) : Sys A R :=
  let s1 : Sys A R := { s with gov := { s.gov with lastInvokeTime := time } }
  let s2 := schedTimer (time + wait) s1
  if leading then invokeFunc f time s2 else s2

/-- timerExpired of the throttle source, run at moment `time`. -/
def timerExpired (wait : Int) (trailing : Bool) (f : A → R) (time : Int)
    (s : Sys A R) : Sys A R :=
  if shouldInvoke wait s.gov time then trailingEdge trailing f time s
  else schedTimer (time + remainingWait wait s.gov time) s

/-- cancel of the throttle source. -/
def tCancel (s : Sys A R) : Sys A R :=
  let s1 : Sys A R :=
    match s.gov.timeout with
    | some d => { s with live := eraseFirst s.live d }
    | none => s
  { s1 with gov := { s1.gov with
      lastInvokeTime := 0, lastArgs := none,
      lastCallTime := none, timeout := none } }

/-- flush of the throttle source. -/
def tFlush (trailing : Bool) (f : A → R) (time : Int) (s : Sys A R) :
    Sys A R :=
  if s.gov.timeout.isNone then s else trailingEdge trailing f time s

/-- The throttled wrapper itself (trailing only matters once a timer
fires, so it is not a parameter here). -/
def throttled (wait : Int) (leading : Bool) (f : A → R)
    (time : Int) (args : A) (s : Sys A R) : Sys A R :=
  let isInvoking := shouldInvoke wait s.gov time
  let s1 : Sys A R :=
    { s with gov := { s.gov with
        lastArgs := some args,
        lastCallTime := some time } }
  if isInvoking && s1.gov.timeout.isNone then
    leadingEdge wait leading f time s1
  else if s1.gov.timeout.isNone then schedTimer (time + wait) s1
  else s1

/-- Events of a throttle system. -/
inductive Ev (A : Type) where
  | call (t : Int) (args : A)
  | fire (t : Int) (due : Int)
  | flushEv (t : Int)
  | cancelEv
deriving DecidableEq, Repr

/-- One event step of the throttle system. -/
def tStep (wait : Int) (leading trailing : Bool) (f : A → R) (s : Sys A R) :
    Ev A → Sys A R
  | Ev.call t a => throttled wait leading f t a s
  | Ev.fire t due =>
      if due ∈ s.live ∧ due ≤ t then
        timerExpired wait trailing f t { s with live := eraseFirst s.live due }
      else s
  | Ev.flushEv t => tFlush trailing f t s
  | Ev.cancelEv => tCancel s

/-- Run a list of throttle events. -/
def tRun (wait : Int) (leading trailing : Bool) (f : A → R) (s : Sys A R) :
    List (Ev A) → Sys A R
  | [] => s
  | e :: es => tRun wait leading trailing f (tStep wait leading trailing f s e) es

/-- invokeFunc of the throttle source when the wrapped function may throw:
bookkeeping precedes the application, as in the debounce version. -/
def invokeFuncE (f : A → Option R) (time : Int) (s : Sys A R) :
    Sys A R × Bool :=
  match s.gov.lastArgs with
  | some args =>
      let g1 : Gov A R :=
        { s.gov with lastArgs := none, lastInvokeTime := time }
      match f args with
      | some r =>
          ({ s with gov := { g1 with result := some r },
                    log := s.log ++ [(time, args)] }, false)
      | none =>
          ({ s with gov := g1, log := s.log ++ [(time, args)] }, true)
  | none => (s, false)

/-- trailingEdge of the throttle source when the wrapped function may
throw. -/
def trailingEdgeE (trailing : Bool) (f : A → Option R) (time : Int)
    (s : Sys A R) : Sys A R × Bool :=
  let s1 : Sys A R := { s with gov := { s.gov with timeout := none } }
  if trailing && s1.gov.lastArgs.isSome then invokeFuncE f time s1
  else ({ s1 with gov := { s1.gov with lastArgs := none } }, false)

end Throttle

/-!
Claim theorems.  Counterexample theorems evaluate the model on concrete
traces; confirmed and amended theorems are proved over all states or traces.
-/

/-- C6: for a throttled wrapper with window 100 and default options, three
calls at t=0 followed by a call at t=50 produce exactly one invocation, at
t=0 with the first call's arguments (so the t=50 call triggers none); when
the timer then fires at t=100 a second invocation occurs with the t=50
arguments. -/
theorem C6_throttle_scenario :
    (Throttle.tRun 100 true true (fun x : Int => x) Throttle.tInit
      [Throttle.Ev.call 0 1, Throttle.Ev.call 0 2, Throttle.Ev.call 0 3,
       Throttle.Ev.call 50 4]).log = [(0, 1)] ∧
    (Throttle.tRun 100 true true (fun x : Int => x) Throttle.tInit
      [Throttle.Ev.call 0 1, Throttle.Ev.call 0 2, Throttle.Ev.call 0 3,
       Throttle.Ev.call 50 4, Throttle.Ev.fire 100 100]).log
      = [(0, 1), (100, 4)] :=
  ⟨rfl, rfl⟩

/-- C1 is false as stated: on a debounced wrapper with maxWait, after a call
at t=0 (primary timer scheduled for t=10) a second call at t=10, arriving
before the runtime delivers that timer, takes the maxWait branch and
schedules a second primary timer while the first is still scheduled and
uncancelled: two primary timers are live. -/
theorem C1_counterexample :
    ((Miovo.dRun ⟨10, some 30, false, true⟩ (fun x : Int => x) Miovo.dInit
        [Miovo.Ev.call 0 0]).live.filter
      (fun tm => tm.kind == Miovo.TKind.primary)).length = 1 ∧
    ((Miovo.dRun ⟨10, some 30, false, true⟩ (fun x : Int => x) Miovo.dInit
        [Miovo.Ev.call 0 0, Miovo.Ev.call 10 1]).live.filter
      (fun tm => tm.kind == Miovo.TKind.primary)).length = 2 :=
  ⟨rfl, rfl⟩

/-- C3 is false as stated: with leading=false, trailing=false but
maxWait=3 (and wait=10), a call at t=0, the escape timer firing punctually
at t=3 (a no-op since trailing is false), and a call at t=4 invoke the
wrapped function through the maxWait branch of the wrapper: the log is
nonempty. -/
theorem C3_counterexample :
    (Miovo.dRun ⟨10, some 3, false, false⟩ (fun x : Int => x) Miovo.dInit
      [Miovo.Ev.call 0 5, Miovo.Ev.fire 3 ⟨3, Miovo.TKind.escape⟩,
       Miovo.Ev.call 4 7]).log = [(4, 7)] :=
  rfl

/-- C4 is false as stated: with leading=true, a call at t=1 sets
lastInvokeTime to 1 and a subsequent cancel resets it to 0, a decrease. -/
theorem C4_counterexample :
    (Miovo.dRun ⟨10, none, true, true⟩ (fun x : Int => x) Miovo.dInit
        [Miovo.Ev.call 1 5]).gov.lastInvokeTime = 1 ∧
    (Miovo.dRun ⟨10, none, true, true⟩ (fun x : Int => x) Miovo.dInit
        [Miovo.Ev.call 1 5, Miovo.Ev.cancelEv]).gov.lastInvokeTime = 0 :=
  ⟨rfl, rfl⟩

/-- C7 is false as stated: (i) with leading=true a single call invokes
immediately, so calls followed by cancel before any timer fires do not
yield zero invocations; (ii) with leading=false but maxWait=3, calls at
t=0 and t=4 (no timer delivered) invoke through the maxWait branch before
the cancel. -/
theorem C7_counterexample :
    (Miovo.dRun ⟨10, none, true, true⟩ (fun x : Int => x) Miovo.dInit
      [Miovo.Ev.call 0 7, Miovo.Ev.cancelEv]).log = [(0, 7)] ∧
    (Miovo.dRun ⟨10, some 3, false, true⟩ (fun x : Int => x) Miovo.dInit
      [Miovo.Ev.call 0 7, Miovo.Ev.call 4 8, Miovo.Ev.cancelEv]).log
      = [(4, 8)] :=
  ⟨rfl, rfl⟩

/-- C8 is false as stated: from the pending state after a call at t=0
(wait=10, defaults), flush at t=3 and waiting for the timer to fire at t=10
both invoke once with the pending arguments, but the resulting governor
states differ: lastInvokeTime is 3 under flush and 10 under waiting, and
flush leaves the primary timer scheduled while waiting consumes it. -/
theorem C8_counterexample :
    (Miovo.dFlush ⟨10, none, false, true⟩ (fun x : Int => x) 3
        (Miovo.dRun ⟨10, none, false, true⟩ (fun x : Int => x) Miovo.dInit
          [Miovo.Ev.call 0 7])).gov.lastInvokeTime = 3 ∧
    (Miovo.dFlush ⟨10, none, false, true⟩ (fun x : Int => x) 3
        (Miovo.dRun ⟨10, none, false, true⟩ (fun x : Int => x) Miovo.dInit
          [Miovo.Ev.call 0 7])).live = [⟨10, Miovo.TKind.primary⟩] ∧
    (Miovo.dStep ⟨10, none, false, true⟩ (fun x : Int => x)
        (Miovo.dRun ⟨10, none, false, true⟩ (fun x : Int => x) Miovo.dInit
          [Miovo.Ev.call 0 7])
        (Miovo.Ev.fire 10 ⟨10, Miovo.TKind.primary⟩)).gov.lastInvokeTime
      = 10 ∧
    (Miovo.dStep ⟨10, none, false, true⟩ (fun x : Int => x)
        (Miovo.dRun ⟨10, none, false, true⟩ (fun x : Int => x) Miovo.dInit
          [Miovo.Ev.call 0 7])
        (Miovo.Ev.fire 10 ⟨10, Miovo.TKind.primary⟩)).live = [] :=
  ⟨rfl, rfl, rfl, rfl⟩

/-- C10: immediately after cancel, both governors reset lastCallTime to none
and lastInvokeTime to 0, so shouldInvoke holds at any time (the next call is
treated like the first call ever); in particular, with leading=true, a call
right after cancel invokes the wrapped function right away with that call's
time and arguments. -/
theorem C10_call_after_cancel :
    (∀ (cfg : Miovo.DebCfg) (s : Miovo.Sys Int Int) (t : Int),
        (Miovo.dCancel s).gov.lastCallTime = none ∧
        (Miovo.dCancel s).gov.lastInvokeTime = 0 ∧
        Miovo.shouldInvoke cfg (Miovo.dCancel s).gov t = true) ∧
    (∀ (wait : Int) (mw : Option Int) (trailing : Bool) (f : Int → Int)
        (s : Miovo.Sys Int Int) (t a : Int),
        (Miovo.debounced ⟨wait, mw, true, trailing⟩ f t a
            (Miovo.dCancel s)).log = (Miovo.dCancel s).log ++ [(t, a)]) ∧
    (∀ (wait : Int) (s : Throttle.Sys Int Int) (t : Int),
        (Throttle.tCancel s).gov.lastCallTime = none ∧
        (Throttle.tCancel s).gov.lastInvokeTime = 0 ∧
        Throttle.shouldInvoke wait (Throttle.tCancel s).gov t = true) ∧
    (∀ (wait : Int) (f : Int → Int) (s : Throttle.Sys Int Int) (t a : Int),
        (Throttle.throttled wait true f t a (Throttle.tCancel s)).log
          = (Throttle.tCancel s).log ++ [(t, a)]) := by
  refine ⟨fun cfg s t => ⟨rfl, rfl, ?_⟩, fun wait mw trailing f s t a => ?_,
    fun wait s t => ⟨rfl, rfl, ?_⟩, fun wait f s t a => ?_⟩
  · simp [Miovo.shouldInvoke, Miovo.dCancel]
  · cases mw <;>
      simp [Miovo.debounced, Miovo.dCancel, Miovo.shouldInvoke,
        Miovo.leadingEdge, Miovo.schedPrimary, Miovo.schedEscape,
        Miovo.invokeFunc]
  · simp [Throttle.shouldInvoke, Throttle.tCancel]
  · simp [Throttle.throttled, Throttle.tCancel, Throttle.shouldInvoke,
      Throttle.leadingEdge, Throttle.schedTimer, Throttle.invokeFunc]

namespace Miovo

/-- invokeFuncE never touches the timeout variable. -/
theorem invokeFuncE_timeout (f : A → Option R) (t : Int) (s : Sys A R) :
    (invokeFuncE f t s).1.gov.timeout = s.gov.timeout := by
  unfold invokeFuncE
  rcases h : s.gov.lastArgs with _ | a
  · rfl
  · dsimp only
    cases f a <;> rfl

/-- After invokeFuncE the pending arguments are always cleared (in the
unreachable none branch they were already clear). -/
theorem invokeFuncE_lastArgs (f : A → Option R) (t : Int) (s : Sys A R) :
    (invokeFuncE f t s).1.gov.lastArgs = none := by
  unfold invokeFuncE
  rcases h : s.gov.lastArgs with _ | a
  · exact h
  · dsimp only
    cases f a <;> rfl

end Miovo

namespace Throttle

/-- invokeFuncE never touches the timeout variable. -/
theorem tInvokeFuncE_timeout (f : A → Option R) (t : Int) (s : Sys A R) :
    (invokeFuncE f t s).1.gov.timeout = s.gov.timeout := by
  unfold invokeFuncE
  rcases h : s.gov.lastArgs with _ | a
  · rfl
  · dsimp only
    cases f a <;> rfl

/-- After invokeFuncE the pending arguments are always cleared. -/
theorem tInvokeFuncE_lastArgs (f : A → Option R) (t : Int) (s : Sys A R) :
    (invokeFuncE f t s).1.gov.lastArgs = none := by
  unfold invokeFuncE
  rcases h : s.gov.lastArgs with _ | a
  · exact h
  · dsimp only
    cases f a <;> rfl

end Throttle

/-- C9: when the wrapped function throws during an invocation, the governor
bookkeeping is already updated, because invokeFunc clears lastArgs and sets
lastInvokeTime before applying the function: after a throwing invocation,
in both governors, lastInvokeTime equals the invocation time, the pending
arguments are cleared (only the cached result is left untouched), and a
throwing trailing edge still nulls the timeout variable, so the governor is
not left pending. -/
theorem C9_throw_leaves_clean_state :
    (∀ (f : Int → Option Int) (t : Int) (s : Miovo.Sys Int Int) (a : Int),
        s.gov.lastArgs = some a →
        (Miovo.invokeFuncE f t s).1.gov.lastInvokeTime = t ∧
        (Miovo.invokeFuncE f t s).1.gov.lastArgs = none ∧
        (Miovo.invokeFuncE f t s).1.gov.lastCallTime = s.gov.lastCallTime ∧
        (Miovo.invokeFuncE f t s).1.gov.timeout = s.gov.timeout ∧
        (Miovo.invokeFuncE f t s).1.gov.maxTimeout = s.gov.maxTimeout ∧
        (f a = none →
          (Miovo.invokeFuncE f t s).1.gov.result = s.gov.result)) ∧
    (∀ (cfg : Miovo.DebCfg) (f : Int → Option Int) (t : Int)
        (s : Miovo.Sys Int Int),
        (Miovo.trailingEdgeE cfg f t s).1.gov.timeout = none ∧
        (Miovo.trailingEdgeE cfg f t s).1.gov.lastArgs = none) ∧
    (∀ (f : Int → Option Int) (t : Int) (s : Throttle.Sys Int Int) (a : Int),
        s.gov.lastArgs = some a →
        (Throttle.invokeFuncE f t s).1.gov.lastInvokeTime = t ∧
        (Throttle.invokeFuncE f t s).1.gov.lastArgs = none ∧
        (Throttle.invokeFuncE f t s).1.gov.lastCallTime = s.gov.lastCallTime ∧
        (Throttle.invokeFuncE f t s).1.gov.timeout = s.gov.timeout ∧
        (f a = none →
          (Throttle.invokeFuncE f t s).1.gov.result = s.gov.result)) ∧
    (∀ (trailing : Bool) (f : Int → Option Int) (t : Int)
        (s : Throttle.Sys Int Int),
        (Throttle.trailingEdgeE trailing f t s).1.gov.timeout = none ∧
        (Throttle.trailingEdgeE trailing f t s).1.gov.lastArgs = none) := by
  refine ⟨fun f t s a h => ?_, fun cfg f t s => ?_, fun f t s a h => ?_,
    fun trailing f t s => ?_⟩
  · unfold Miovo.invokeFuncE
    rw [h]
    cases hf : f a <;> simp [hf]
  · unfold Miovo.trailingEdgeE
    dsimp only
    refine ⟨?_, ?_⟩ <;> split
    · rw [Miovo.invokeFuncE_timeout]
      split <;> rfl
    · split <;> rfl
    · exact Miovo.invokeFuncE_lastArgs ..
    · rfl
  · unfold Throttle.invokeFuncE
    rw [h]
    cases hf : f a <;> simp [hf]
  · unfold Throttle.trailingEdgeE
    dsimp only
    refine ⟨?_, ?_⟩ <;> split
    · rw [Throttle.tInvokeFuncE_timeout]
    · rfl
    · exact Throttle.tInvokeFuncE_lastArgs ..
    · rfl

/-- A concrete pending debounce state used by the C9 witness. -/
def pendingSysC9 : Miovo.Sys Int Int :=
  ⟨⟨some ⟨10, Miovo.TKind.primary⟩, none, some 7, none, some 0, 0⟩,
    [⟨10, Miovo.TKind.primary⟩], []⟩

/-- Witness for C9 at a concrete pending state and a throwing function. -/
theorem C9_witness :
    pendingSysC9.gov.lastArgs = some 7 ∧
    (Miovo.invokeFuncE (fun _ : Int => (none : Option Int)) 10
        pendingSysC9).1.gov.lastInvokeTime = 10 :=
  ⟨rfl, (C9_throw_leaves_clean_state.1 (fun _ => none) 10
      pendingSysC9 7 rfl).1⟩

namespace Miovo

/-- Every debounce operation either stamps lastInvokeTime with the current
moment or leaves it unchanged: invokeFunc. -/
theorem invokeFunc_LI (f : A → R) (t : Int) (s : Sys A R) :
    (invokeFunc f t s).gov.lastInvokeTime = t ∨
    (invokeFunc f t s).gov.lastInvokeTime = s.gov.lastInvokeTime := by
  unfold invokeFunc
  rcases h : s.gov.lastArgs with _ | a
  · exact Or.inr rfl
  · exact Or.inl rfl

/-- lastInvokeTime after trailingEdge: the current moment or unchanged. -/
theorem trailingEdge_LI (cfg : DebCfg) (f : A → R) (t : Int) (s : Sys A R) :
    (trailingEdge cfg f t s).gov.lastInvokeTime = t ∨
    (trailingEdge cfg f t s).gov.lastInvokeTime = s.gov.lastInvokeTime := by
  unfold trailingEdge
  dsimp only
  split
  · rcases invokeFunc_LI f t _ with h | h
    · exact Or.inl h
    · right
      rw [h]
      split <;> rfl
  · right
    split <;> rfl

/-- lastInvokeTime after leadingEdge is the current moment. -/
theorem leadingEdge_LI (cfg : DebCfg) (f : A → R) (t : Int) (s : Sys A R) :
    (leadingEdge cfg f t s).gov.lastInvokeTime = t := by
  unfold leadingEdge
  dsimp only
  split
  · rcases invokeFunc_LI f t _ with h | h
    · exact h
    · rw [h]
      split <;> rfl
  · split <;> rfl

/-- lastInvokeTime after timerExpired: the current moment or unchanged. -/
theorem timerExpired_LI (cfg : DebCfg) (f : A → R) (t : Int) (s : Sys A R) :
    (timerExpired cfg f t s).gov.lastInvokeTime = t ∨
    (timerExpired cfg f t s).gov.lastInvokeTime = s.gov.lastInvokeTime := by
  unfold timerExpired
  split
  · exact trailingEdge_LI cfg f t s
  · exact Or.inr rfl

/-- lastInvokeTime after maxTimerExpired: the current moment or unchanged. -/
theorem maxTimerExpired_LI (cfg : DebCfg) (f : A → R) (t : Int)
    (s : Sys A R) :
    (maxTimerExpired cfg f t s).gov.lastInvokeTime = t ∨
    (maxTimerExpired cfg f t s).gov.lastInvokeTime = s.gov.lastInvokeTime := by
  unfold maxTimerExpired
  split
  · exact trailingEdge_LI cfg f t s
  · exact Or.inr rfl

/-- lastInvokeTime after a call: the call's moment or unchanged. -/
theorem debounced_LI (cfg : DebCfg) (f : A → R) (t : Int) (a : A)
    (s : Sys A R) :
    (debounced cfg f t a s).gov.lastInvokeTime = t ∨
    (debounced cfg f t a s).gov.lastInvokeTime = s.gov.lastInvokeTime := by
  unfold debounced
  dsimp only
  split
  · exact Or.inl (leadingEdge_LI ..)
  split
  · rcases invokeFunc_LI f t _ with h | h
    · exact Or.inl h
    · right
      rw [h]
      rfl
  split
  · exact Or.inr rfl
  · exact Or.inr rfl

/-- lastInvokeTime after flush: the flush moment or unchanged. -/
theorem dFlush_LI (cfg : DebCfg) (f : A → R) (t : Int) (s : Sys A R) :
    (dFlush cfg f t s).gov.lastInvokeTime = t ∨
    (dFlush cfg f t s).gov.lastInvokeTime = s.gov.lastInvokeTime := by
  unfold dFlush
  split
  · exact Or.inr rfl
  · exact trailingEdge_LI cfg f t s

/-- lastInvokeTime after any debounce event at moment t: t or unchanged. -/
theorem dStep_LI (cfg : DebCfg) (f : A → R) (s : Sys A R) (e : Ev A)
    (t : Int)
    (he : e = Ev.flushEv t ∨ (∃ a, e = Ev.call t a) ∨
      ∃ tm, e = Ev.fire t tm) :
    (dStep cfg f s e).gov.lastInvokeTime = t ∨
    (dStep cfg f s e).gov.lastInvokeTime = s.gov.lastInvokeTime := by
  rcases he with rfl | ⟨a, rfl⟩ | ⟨tm, rfl⟩
  · exact dFlush_LI cfg f t s
  · exact debounced_LI cfg f t a s
  · rcases tm with ⟨due, k⟩
    cases k <;> simp only [dStep] <;> split
    · exact timerExpired_LI cfg f t _
    · exact Or.inr rfl
    · exact maxTimerExpired_LI cfg f t _
    · exact Or.inr rfl

end Miovo

namespace Throttle

/-- lastInvokeTime after the throttle invokeFunc: current moment or
unchanged. -/
theorem tInvokeFunc_LI (f : A → R) (t : Int) (s : Sys A R) :
    (invokeFunc f t s).gov.lastInvokeTime = t ∨
    (invokeFunc f t s).gov.lastInvokeTime = s.gov.lastInvokeTime := by
  unfold invokeFunc
  rcases h : s.gov.lastArgs with _ | a
  · exact Or.inr rfl
  · exact Or.inl rfl

/-- lastInvokeTime after the throttle trailingEdge: current moment or
unchanged. -/
theorem tTrailingEdge_LI (trailing : Bool) (f : A → R) (t : Int)
    (s : Sys A R) :
    (trailingEdge trailing f t s).gov.lastInvokeTime = t ∨
    (trailingEdge trailing f t s).gov.lastInvokeTime =
      s.gov.lastInvokeTime := by
  unfold trailingEdge
  dsimp only
  split
  · rcases tInvokeFunc_LI f t _ with h | h
    · exact Or.inl h
    · right
      rw [h]
  · exact Or.inr rfl

/-- lastInvokeTime after the throttle leadingEdge is the current moment. -/
theorem tLeadingEdge_LI (wait : Int) (leading : Bool) (f : A → R) (t : Int)
    (s : Sys A R) :
    (leadingEdge wait leading f t s).gov.lastInvokeTime = t := by
  unfold leadingEdge
  dsimp only
  split
  · rcases tInvokeFunc_LI f t _ with h | h
    · exact h
    · rw [h]
      rfl
  · rfl

/-- lastInvokeTime after the throttle timerExpired: current moment or
unchanged. -/
theorem tTimerExpired_LI (wait : Int) (trailing : Bool) (f : A → R) (t : Int)
    (s : Sys A R) :
    (timerExpired wait trailing f t s).gov.lastInvokeTime = t ∨
    (timerExpired wait trailing f t s).gov.lastInvokeTime =
      s.gov.lastInvokeTime := by
  unfold timerExpired
  split
  · exact tTrailingEdge_LI trailing f t s
  · exact Or.inr rfl

/-- lastInvokeTime after a throttled call: the call's moment or unchanged. -/
theorem throttled_LI (wait : Int) (leading : Bool) (f : A → R) (t : Int)
    (a : A) (s : Sys A R) :
    (throttled wait leading f t a s).gov.lastInvokeTime = t ∨
    (throttled wait leading f t a s).gov.lastInvokeTime =
      s.gov.lastInvokeTime := by
  unfold throttled
  dsimp only
  split
  · exact Or.inl (tLeadingEdge_LI ..)
  split
  · exact Or.inr rfl
  · exact Or.inr rfl

/-- lastInvokeTime after the throttle flush: flush moment or unchanged. -/
theorem tFlush_LI (trailing : Bool) (f : A → R) (t : Int) (s : Sys A R) :
    (tFlush trailing f t s).gov.lastInvokeTime = t ∨
    (tFlush trailing f t s).gov.lastInvokeTime = s.gov.lastInvokeTime := by
  unfold tFlush
  split
  · exact Or.inr rfl
  · exact tTrailingEdge_LI trailing f t s

/-- lastInvokeTime after any throttle event at moment t: t or unchanged. -/
theorem tStep_LI (wait : Int) (leading trailing : Bool) (f : A → R)
    (s : Sys A R) (e : Ev A) (t : Int)
    (he : e = Ev.flushEv t ∨ (∃ a, e = Ev.call t a) ∨
      ∃ due, e = Ev.fire t due) :
    (tStep wait leading trailing f s e).gov.lastInvokeTime = t ∨
    (tStep wait leading trailing f s e).gov.lastInvokeTime =
      s.gov.lastInvokeTime := by
  rcases he with rfl | ⟨a, rfl⟩ | ⟨due, rfl⟩
  · exact tFlush_LI trailing f t s
  · exact throttled_LI wait leading f t a s
  · simp only [tStep]
    split
    · exact tTimerExpired_LI wait trailing f t _
    · exact Or.inr rfl

end Throttle

/-- C4 amended: in both governors, every operation executed at a moment t
not earlier than the current lastInvokeTime leaves lastInvokeTime
non-decreasing (and bounded by t), so along any trace of calls, timer
firings and flushes with non-decreasing timestamps lastInvokeTime is
monotone; cancel however resets lastInvokeTime to 0, which can decrease
it. -/
theorem C4_monotone_without_cancel :
    (∀ (cfg : Miovo.DebCfg) (f : Int → Int) (s : Miovo.Sys Int Int)
        (e : Miovo.Ev Int) (t : Int),
        (e = Miovo.Ev.flushEv t ∨ (∃ a, e = Miovo.Ev.call t a) ∨
          ∃ tm, e = Miovo.Ev.fire t tm) →
        s.gov.lastInvokeTime ≤ t →
        s.gov.lastInvokeTime ≤ (Miovo.dStep cfg f s e).gov.lastInvokeTime ∧
          (Miovo.dStep cfg f s e).gov.lastInvokeTime ≤ t) ∧
    (∀ s : Miovo.Sys Int Int, (Miovo.dCancel s).gov.lastInvokeTime = 0) ∧
    (∀ (wait : Int) (leading trailing : Bool) (f : Int → Int)
        (s : Throttle.Sys Int Int) (e : Throttle.Ev Int) (t : Int),
        (e = Throttle.Ev.flushEv t ∨ (∃ a, e = Throttle.Ev.call t a) ∨
          ∃ due, e = Throttle.Ev.fire t due) →
        s.gov.lastInvokeTime ≤ t →
        s.gov.lastInvokeTime ≤
            (Throttle.tStep wait leading trailing f s e).gov.lastInvokeTime ∧
          (Throttle.tStep wait leading trailing f s e).gov.lastInvokeTime
            ≤ t) ∧
    (∀ s : Throttle.Sys Int Int,
        (Throttle.tCancel s).gov.lastInvokeTime = 0) := by
  refine ⟨fun cfg f s e t he hle => ?_, fun s => rfl,
    fun wait leading trailing f s e t he hle => ?_, fun s => rfl⟩
  · rcases Miovo.dStep_LI cfg f s e t he with h | h <;> rw [h] <;> omega
  · rcases Throttle.tStep_LI wait leading trailing f s e t he with h | h <;>
      rw [h] <;> omega

/-- Witness for the C4 amended theorem at a concrete state and event. -/
theorem C4_witness :
    ((Miovo.dRun ⟨10, none, true, true⟩ (fun x : Int => x) Miovo.dInit
        [Miovo.Ev.call 1 5]).gov.lastInvokeTime ≤ 4) ∧
    ((Miovo.dStep ⟨10, none, true, true⟩ (fun x : Int => x)
        (Miovo.dRun ⟨10, none, true, true⟩ (fun x : Int => x) Miovo.dInit
          [Miovo.Ev.call 1 5])
        (Miovo.Ev.call 4 6)).gov.lastInvokeTime ≤ 4) :=
  ⟨by decide,
    (C4_monotone_without_cancel.1 ⟨10, none, true, true⟩ (fun x => x)
      (Miovo.dRun ⟨10, none, true, true⟩ (fun x : Int => x) Miovo.dInit
        [Miovo.Ev.call 1 5])
      (Miovo.Ev.call 4 6) 4 (Or.inr (Or.inl ⟨6, rfl⟩)) (by decide)).2⟩

namespace Miovo

/-- The single-timer invariant that holds when maxWait is not configured:
either the timeout variable is clear and no timer is live, or it holds the
single live (primary) timer; the escape-timer variable is never set. -/
def C1Inv (s : Sys A R) : Prop :=
  s.gov.maxTimeout = none ∧
  ((s.gov.timeout = none ∧ s.live = []) ∨
   (∃ tm, tm.kind = TKind.primary ∧ s.gov.timeout = some tm ∧
     s.live = [tm]))

/-- invokeFunc leaves the timeout variable unchanged. -/
theorem invokeFunc_timeout (f : A → R) (t : Int) (s : Sys A R) :
    (invokeFunc f t s).gov.timeout = s.gov.timeout := by
  unfold invokeFunc
  rcases h : s.gov.lastArgs with _ | a <;> rfl

/-- invokeFunc leaves the escape-timer variable unchanged. -/
theorem invokeFunc_maxTimeout (f : A → R) (t : Int) (s : Sys A R) :
    (invokeFunc f t s).gov.maxTimeout = s.gov.maxTimeout := by
  unfold invokeFunc
  rcases h : s.gov.lastArgs with _ | a <;> rfl

/-- invokeFunc schedules and cancels nothing. -/
theorem invokeFunc_live (f : A → R) (t : Int) (s : Sys A R) :
    (invokeFunc f t s).live = s.live := by
  unfold invokeFunc
  rcases h : s.gov.lastArgs with _ | a <;> rfl

/-- leadingEdge from an idle state preserves the single-timer invariant
when maxWait is not configured. -/
theorem C1Inv_leadingEdge (cfg : DebCfg) (hmw : cfg.maxWait = none)
    (f : A → R) (t : Int) (s : Sys A R)
    (hmt : s.gov.maxTimeout = none) (hlv : s.live = []) :
    C1Inv (leadingEdge cfg f t s) := by
  unfold leadingEdge
  rw [hmw]
  dsimp only
  split
  · simp only [C1Inv, invokeFunc_timeout, invokeFunc_maxTimeout,
      invokeFunc_live]
    refine ⟨hmt, Or.inr ⟨⟨t + cfg.wait, TKind.primary⟩, rfl, rfl, ?_⟩⟩
    simp [schedPrimary, hlv]
  · refine ⟨hmt, Or.inr ⟨⟨t + cfg.wait, TKind.primary⟩, rfl, rfl, ?_⟩⟩
    simp [schedPrimary, hlv]

/-- trailingEdge with no escape timer set: timeout variable cleared, live
timers untouched. -/
theorem trailingEdge_shape (cfg : DebCfg) (f : A → R) (t : Int)
    (s : Sys A R) (hmt : s.gov.maxTimeout = none) :
    (trailingEdge cfg f t s).gov.timeout = none ∧
    (trailingEdge cfg f t s).gov.maxTimeout = none ∧
    (trailingEdge cfg f t s).live = s.live := by
  unfold trailingEdge
  dsimp only
  rw [hmt]
  dsimp only
  split <;>
    simp only [invokeFunc_timeout, invokeFunc_maxTimeout, invokeFunc_live] <;>
      simp [hmt]

/-- A call preserves the single-timer invariant when maxWait is not
configured. -/
theorem C1Inv_call (cfg : DebCfg) (hmw : cfg.maxWait = none) (f : A → R)
    (t : Int) (a : A) (s : Sys A R) (h : C1Inv s) :
    C1Inv (debounced cfg f t a s) := by
  obtain ⟨hmt, hcase⟩ := h
  unfold debounced
  rw [hmw]
  dsimp only
  rcases hcase with ⟨hto, hlv⟩ | ⟨tm, hk, hto, hlv⟩
  · rw [hto]
    simp only [Option.isNone_none, Bool.and_true, Option.isSome_none,
      Bool.and_false, Bool.false_eq_true, if_false]
    split
    · exact C1Inv_leadingEdge cfg hmw f t _ hmt hlv
    · refine ⟨hmt, Or.inr ⟨⟨t + cfg.wait, TKind.primary⟩, rfl, rfl, ?_⟩⟩
      simp [schedPrimary, hlv]
  · rw [hto]
    simp only [Option.isNone_some, Bool.and_false, Option.isSome_none,
      Bool.false_eq_true, if_false]
    exact ⟨hmt, Or.inr ⟨tm, hk, rfl, hlv⟩⟩

/-- A timer delivery preserves the single-timer invariant. -/
theorem C1Inv_fire (cfg : DebCfg) (f : A → R)
    (t : Int) (tm : Timer) (s : Sys A R) (h : C1Inv s) :
    C1Inv (dStep cfg f s (Ev.fire t tm)) := by
  obtain ⟨hmt, hcase⟩ := h
  simp only [dStep]
  split
  · rename_i hg
    rcases hcase with ⟨hto, hlv⟩ | ⟨tm0, hk, hto, hlv⟩
    · rw [hlv] at hg
      exact absurd hg.1 (List.not_mem_nil tm)
    · rw [hlv] at hg
      have htm : tm = tm0 := by simpa using hg.1
      subst htm
      rw [hk]
      dsimp only
      unfold timerExpired
      split
      · have hs := trailingEdge_shape cfg f t
          { s with live := eraseFirst s.live tm } hmt
        refine ⟨hs.2.1, Or.inl ⟨hs.1, ?_⟩⟩
        rw [hs.2.2]
        simp [hlv, eraseFirst]
      · refine ⟨hmt, Or.inr ⟨_, rfl, rfl, ?_⟩⟩
        simp [schedPrimary, hlv, eraseFirst]
  · exact ⟨hmt, by
      rcases hcase with ⟨hto, hlv⟩ | ⟨tm0, hk, hto, hlv⟩
      · exact Or.inl ⟨hto, hlv⟩
      · exact Or.inr ⟨tm0, hk, hto, hlv⟩⟩

/-- Cancel preserves the single-timer invariant. -/
theorem C1Inv_cancel (s : Sys A R) (h : C1Inv s) : C1Inv (dCancel s) := by
  obtain ⟨hmt, hcase⟩ := h
  unfold dCancel
  dsimp only
  rcases hcase with ⟨hto, hlv⟩ | ⟨tm0, hk, hto, hlv⟩
  · rw [hto]
    dsimp only
    rw [hmt]
    exact ⟨rfl, Or.inl ⟨rfl, hlv⟩⟩
  · rw [hto]
    dsimp only
    rw [hmt]
    refine ⟨rfl, Or.inl ⟨rfl, ?_⟩⟩
    simp [hlv, eraseFirst]

/-- The single-timer invariant holds along every flush-free trace when
maxWait is not configured. -/
theorem C1Inv_run (cfg : DebCfg) (hmw : cfg.maxWait = none) (f : A → R)
    (evs : List (Ev A)) (s : Sys A R) (h : C1Inv s)
    (hnf : ∀ t, Ev.flushEv t ∉ evs) : C1Inv (dRun cfg f s evs) := by
  induction evs generalizing s with
  | nil => exact h
  | cons e es ih =>
    refine ih (dStep cfg f s e) ?_
      (fun t hm => hnf t (List.mem_cons_of_mem e hm))
    cases e with
    | call t a => exact C1Inv_call cfg hmw f t a s h
    | fire t tm => exact C1Inv_fire cfg f t tm s h
    | flushEv t => exact absurd (List.mem_cons_self _ _) (hnf t)
    | cancelEv => exact C1Inv_cancel s h

end Miovo

/-- C1 amended: for a debounced wrapper with maxWait not configured, along
every sequence of calls, timer firings and cancels, at most one primary
timer is ever scheduled-and-uncancelled; with maxWait configured this
fails, because a call that satisfies shouldInvoke while a timer is pending
schedules a second primary timer without cancelling the first. -/
theorem C1_single_primary (wait : Int) (leading trailing : Bool)
    (f : Int → Int) (evs : List (Miovo.Ev Int))
    (hnf : ∀ t, Miovo.Ev.flushEv t ∉ evs) :
    ((Miovo.dRun ⟨wait, none, leading, trailing⟩ f Miovo.dInit
        evs).live.filter
      (fun tm => tm.kind == Miovo.TKind.primary)).length ≤ 1 := by
  obtain ⟨hmt, hc⟩ := Miovo.C1Inv_run ⟨wait, none, leading, trailing⟩ rfl f
    evs Miovo.dInit ⟨rfl, Or.inl ⟨rfl, rfl⟩⟩ hnf
  calc ((Miovo.dRun ⟨wait, none, leading, trailing⟩ f Miovo.dInit
        evs).live.filter (fun tm => tm.kind == Miovo.TKind.primary)).length
      ≤ (Miovo.dRun ⟨wait, none, leading, trailing⟩ f Miovo.dInit
          evs).live.length := List.length_filter_le _ _
    _ ≤ 1 := by
        rcases hc with ⟨hto, hlv⟩ | ⟨tm, hk, hto, hlv⟩ <;> rw [hlv] <;> simp

/-- Witness for the amended C1 theorem on a concrete flush-free trace. -/
theorem C1_witness :
    (∀ t : Int, Miovo.Ev.flushEv t ∉
      ([Miovo.Ev.call 0 0, Miovo.Ev.call 20 1] : List (Miovo.Ev Int))) ∧
    ((Miovo.dRun ⟨10, none, false, true⟩ (fun x : Int => x) Miovo.dInit
        [Miovo.Ev.call 0 0, Miovo.Ev.call 20 1]).live.filter
      (fun tm => tm.kind == Miovo.TKind.primary)).length ≤ 1 :=
  ⟨fun t h => by simp at h,
    C1_single_primary 10 false true (fun x => x)
      [Miovo.Ev.call 0 0, Miovo.Ev.call 20 1] (fun t h => by simp at h)⟩

namespace Miovo

/-- With trailing disabled, trailingEdge never invokes: the log is
unchanged. -/
theorem trailingEdge_log_noTrailing (cfg : DebCfg)
    (ht : cfg.trailing = false) (f : A → R) (t : Int) (s : Sys A R) :
    (trailingEdge cfg f t s).log = s.log := by
  unfold trailingEdge
  dsimp only
  rw [ht]
  simp only [Bool.false_and, Bool.false_eq_true, if_false]
  split <;> rfl

/-- With leading disabled, leadingEdge never invokes: the log is
unchanged. -/
theorem leadingEdge_log_noLeading (cfg : DebCfg)
    (hl : cfg.leading = false) (f : A → R) (t : Int) (s : Sys A R) :
    (leadingEdge cfg f t s).log = s.log := by
  unfold leadingEdge
  dsimp only
  rw [hl]
  simp only [Bool.false_eq_true, if_false]
  split <;> rfl

/-- With both edges disabled and no maxWait, a call never invokes. -/
theorem debounced_log_swallow (cfg : DebCfg) (hl : cfg.leading = false)
    (hmw : cfg.maxWait = none) (f : A → R) (t : Int) (a : A) (s : Sys A R) :
    (debounced cfg f t a s).log = s.log := by
  unfold debounced
  rw [hmw]
  dsimp only
  simp only [Option.isSome_none, Bool.and_false, Bool.false_eq_true,
    if_false]
  split
  · rw [leadingEdge_log_noLeading cfg hl]
  · split <;> rfl

/-- With trailing disabled, timerExpired never invokes. -/
theorem timerExpired_log_noTrailing (cfg : DebCfg)
    (ht : cfg.trailing = false) (f : A → R) (t : Int) (s : Sys A R) :
    (timerExpired cfg f t s).log = s.log := by
  unfold timerExpired
  split
  · exact trailingEdge_log_noTrailing cfg ht f t s
  · rfl

/-- With trailing disabled, maxTimerExpired is a no-op on the log. -/
theorem maxTimerExpired_log_noTrailing (cfg : DebCfg)
    (ht : cfg.trailing = false) (f : A → R) (t : Int) (s : Sys A R) :
    (maxTimerExpired cfg f t s).log = s.log := by
  unfold maxTimerExpired
  rw [ht]
  simp only [Bool.and_false, Bool.false_eq_true, if_false]

/-- With trailing disabled, flush never invokes. -/
theorem dFlush_log_noTrailing (cfg : DebCfg) (ht : cfg.trailing = false)
    (f : A → R) (t : Int) (s : Sys A R) :
    (dFlush cfg f t s).log = s.log := by
  unfold dFlush
  split
  · rfl
  · exact trailingEdge_log_noTrailing cfg ht f t s

/-- Cancel never invokes. -/
theorem dCancel_log (s : Sys A R) : (dCancel s).log = s.log := by
  unfold dCancel
  dsimp only
  split <;> split <;> rfl

/-- With both edges disabled and no maxWait, no event ever invokes. -/
theorem dStep_log_swallow (cfg : DebCfg) (hl : cfg.leading = false)
    (ht : cfg.trailing = false) (hmw : cfg.maxWait = none) (f : A → R)
    (s : Sys A R) (e : Ev A) : (dStep cfg f s e).log = s.log := by
  cases e with
  | call t a => exact debounced_log_swallow cfg hl hmw f t a s
  | fire t tm =>
      rcases tm with ⟨due, k⟩
      cases k <;> simp only [dStep] <;> split
      · exact timerExpired_log_noTrailing cfg ht f t _
      · rfl
      · exact maxTimerExpired_log_noTrailing cfg ht f t _
      · rfl
  | flushEv t => exact dFlush_log_noTrailing cfg ht f t s
  | cancelEv => exact dCancel_log s

/-- With both edges disabled and no maxWait, no trace ever invokes. -/
theorem dRun_log_swallow (cfg : DebCfg) (hl : cfg.leading = false)
    (ht : cfg.trailing = false) (hmw : cfg.maxWait = none) (f : A → R)
    (evs : List (Ev A)) (s : Sys A R) :
    (dRun cfg f s evs).log = s.log := by
  induction evs generalizing s with
  | nil => rfl
  | cons e es ih =>
      rw [dRun, ih (dStep cfg f s e), dStep_log_swallow cfg hl ht hmw f s e]

end Miovo

/-- C3 amended: a debounced wrapper with leading=false, trailing=false and
no maxWait never invokes the wrapped function, for every sequence of calls,
timer firings, flushes and cancels; with maxWait configured this fails (the
maxWait branch of the wrapper invokes even with both edges disabled). -/
theorem C3_swallowed (wait : Int) (f : Int → Int)
    (evs : List (Miovo.Ev Int)) :
    (Miovo.dRun ⟨wait, none, false, false⟩ f Miovo.dInit evs).log = [] :=
  Miovo.dRun_log_swallow ⟨wait, none, false, false⟩ rfl rfl rfl f evs
    Miovo.dInit

namespace Miovo

/-- Running an event list in two stages. -/
theorem dRun_append (cfg : DebCfg) (f : A → R) (l1 l2 : List (Ev A))
    (s : Sys A R) :
    dRun cfg f s (l1 ++ l2) = dRun cfg f (dRun cfg f s l1) l2 := by
  induction l1 generalizing s with
  | nil => rfl
  | cons e es ih => rw [List.cons_append, dRun, dRun, ih]

/-- Cancel empties the live timers of any state satisfying the
single-timer invariant. -/
theorem dCancel_live (s : Sys A R) (h : C1Inv s) : (dCancel s).live = [] := by
  obtain ⟨hmt, hc⟩ := h
  unfold dCancel
  dsimp only
  rcases hc with ⟨hto, hlv⟩ | ⟨tm0, hk, hto, hlv⟩ <;>
    rw [hto] <;> dsimp only <;> rw [hmt] <;> simp [hlv, eraseFirst]

/-- A fire event on a state with no live timers is a no-op. -/
theorem dStep_fire_empty (cfg : DebCfg) (f : A → R) (t : Int) (tm : Timer)
    (s : Sys A R) (hlv : s.live = []) :
    dStep cfg f s (Ev.fire t tm) = s := by
  simp only [dStep]
  rw [if_neg]
  rintro ⟨hm, _⟩
  rw [hlv] at hm
  exact List.not_mem_nil tm hm

/-- A run of call events with leading disabled and no maxWait never
invokes. -/
theorem dRun_calls_log (cfg : DebCfg) (hl : cfg.leading = false)
    (hmw : cfg.maxWait = none) (f : A → R) (evs : List (Ev A)) (s : Sys A R)
    (hc : ∀ e ∈ evs, ∃ t a, e = Ev.call t a) :
    (dRun cfg f s evs).log = s.log := by
  induction evs generalizing s with
  | nil => rfl
  | cons e es ih =>
      obtain ⟨t, a, rfl⟩ := hc e (List.mem_cons_self _ _)
      rw [dRun, ih _ (fun e he => hc e (List.mem_cons_of_mem _ he))]
      exact debounced_log_swallow cfg hl hmw f t a s

/-- A run of fire events from a state with no live timers is a no-op. -/
theorem dRun_fires_empty (cfg : DebCfg) (f : A → R) (evs : List (Ev A))
    (s : Sys A R) (hlv : s.live = [])
    (hp : ∀ e ∈ evs, ∃ t tm, e = Ev.fire t tm) :
    dRun cfg f s evs = s := by
  induction evs with
  | nil => rfl
  | cons e es ih =>
      obtain ⟨t, tm, rfl⟩ := hp e (List.mem_cons_self _ _)
      rw [dRun, dStep_fire_empty cfg f t tm s hlv,
        ih (fun e he => hp e (List.mem_cons_of_mem _ he))]

end Miovo

/-- C7 amended: for a debounced wrapper with leading=false and no maxWait,
any sequence of calls followed by cancel, with no timer delivered before
the cancel, yields zero invocations, and no timer scheduled before the
cancel survives it, so any timer deliveries afterwards execute nothing:
the invocation log stays empty.  (With leading=true, or with maxWait
configured, invocations can already occur during the calls.) -/
theorem C7_cancel_yields_no_invocation (wait : Int) (trailing : Bool)
    (f : Int → Int) (callEvs postEvs : List (Miovo.Ev Int))
    (hc : ∀ e ∈ callEvs, ∃ t a, e = Miovo.Ev.call t a)
    (hp : ∀ e ∈ postEvs, ∃ t tm, e = Miovo.Ev.fire t tm) :
    (Miovo.dRun ⟨wait, none, false, trailing⟩ f Miovo.dInit
      (callEvs ++ Miovo.Ev.cancelEv :: postEvs)).log = [] := by
  set cfg : Miovo.DebCfg := ⟨wait, none, false, trailing⟩ with hcfg
  have hnf : ∀ t, Miovo.Ev.flushEv t ∉ callEvs := by
    intro t hmem
    obtain ⟨t2, a2, h2⟩ := hc _ hmem
    exact Miovo.Ev.noConfusion h2
  have hinv : Miovo.C1Inv (Miovo.dRun cfg f Miovo.dInit callEvs) :=
    Miovo.C1Inv_run cfg rfl f callEvs Miovo.dInit
      ⟨rfl, Or.inl ⟨rfl, rfl⟩⟩ hnf
  have hlog1 : (Miovo.dRun cfg f Miovo.dInit callEvs).log = [] :=
    Miovo.dRun_calls_log cfg rfl rfl f callEvs Miovo.dInit hc
  rw [Miovo.dRun_append, Miovo.dRun]
  rw [show Miovo.dStep cfg f (Miovo.dRun cfg f Miovo.dInit callEvs)
      Miovo.Ev.cancelEv
      = Miovo.dCancel (Miovo.dRun cfg f Miovo.dInit callEvs) from rfl]
  rw [Miovo.dRun_fires_empty cfg f postEvs _
    (Miovo.dCancel_live _ hinv) hp]
  rw [Miovo.dCancel_log, hlog1]

/-- Witness for the amended C7 theorem on a concrete trace. -/
theorem C7_witness :
    (Miovo.dRun ⟨10, none, false, true⟩ (fun x : Int => x) Miovo.dInit
      ([Miovo.Ev.call 0 7, Miovo.Ev.call 3 8] ++ Miovo.Ev.cancelEv ::
        [Miovo.Ev.fire 10 ⟨10, Miovo.TKind.primary⟩])).log = [] :=
  C7_cancel_yields_no_invocation 10 true (fun x => x)
    [Miovo.Ev.call 0 7, Miovo.Ev.call 3 8]
    [Miovo.Ev.fire 10 ⟨10, Miovo.TKind.primary⟩]
    (by
      intro e he
      simp only [List.mem_cons, List.not_mem_nil, or_false] at he
      rcases he with rfl | rfl
      · exact ⟨0, 7, rfl⟩
      · exact ⟨3, 8, rfl⟩)
    (by
      intro e he
      simp only [List.mem_cons, List.not_mem_nil, or_false] at he
      subst he
      exact ⟨10, ⟨10, Miovo.TKind.primary⟩, rfl⟩)

namespace Miovo

/-- Erasing a different timer keeps membership. -/
theorem mem_eraseFirst_of_ne (l : List Timer) (x y : Timer) (hne : x ≠ y)
    (hx : x ∈ l) : x ∈ eraseFirst l y := by
  induction l with
  | nil => exact absurd hx (List.not_mem_nil x)
  | cons h t ih =>
      unfold eraseFirst
      rcases List.mem_cons.mp hx with rfl | hxt
      · rw [if_neg hne]
        exact List.mem_cons_self _ _
      · split
        · exact hxt
        · exact List.mem_cons_of_mem _ (ih hxt)

/-- A trailing edge that invokes, in closed form: with trailing enabled and
pending arguments, trailingEdge at moment t clears the pending arguments
and both timer variables, stamps lastInvokeTime, caches the fresh result,
appends (t, args) to the log, and touches the live list only to clear the
tracked escape timer. -/
theorem trailingEdge_invoke_eq (cfg : DebCfg) (ht : cfg.trailing = true)
    (f : A → R) (t : Int) (s : Sys A R) (a : A)
    (hargs : s.gov.lastArgs = some a) :
    trailingEdge cfg f t s =
      { gov := { timeout := none, maxTimeout := none, lastArgs := none,
                 result := some (f a), lastCallTime := s.gov.lastCallTime,
                 lastInvokeTime := t },
        live := (match s.gov.maxTimeout with
                 | some mt => eraseFirst s.live mt
                 | none => s.live),
        log := s.log ++ [(t, a)] } := by
  unfold trailingEdge invokeFunc
  dsimp only
  rcases hmt : s.gov.maxTimeout with _ | mt <;> rw [ht] <;>
    simp only [hargs, hmt, Option.isSome_some, Bool.true_and, if_true]

end Miovo

/-- C8 amended: from a pending state (tracked primary timer live, pending
arguments present, trailing enabled, shouldInvoke holding at the timer
deadline, and the escape-timer variable of escape kind when set), flush at
moment t and delivery of the tracked timer at its due time produce the same
number of invocations with the same arguments, and governor states that
agree on every field except lastInvokeTime (t under flush, the due time
under waiting); flush moreover leaves the primary timer scheduled
(orphaned) while waiting consumes it, so the full state equality asserted
by the claim fails. -/
theorem C8_flush_vs_waiting (wait : Int) (mw : Option Int)
    (leading : Bool) (f : Int → Int) (s : Miovo.Sys Int Int)
    (tm : Miovo.Timer) (a t : Int)
    (hto : s.gov.timeout = some tm) (hmem : tm ∈ s.live)
    (hk : tm.kind = Miovo.TKind.primary)
    (hargs : s.gov.lastArgs = some a)
    (hmtk : ∀ mt, s.gov.maxTimeout = some mt →
      mt.kind = Miovo.TKind.escape)
    (hsi : Miovo.shouldInvoke ⟨wait, mw, leading, true⟩ s.gov tm.due
      = true) :
    (Miovo.dFlush ⟨wait, mw, leading, true⟩ f t s).log
        = s.log ++ [(t, a)] ∧
    (Miovo.dStep ⟨wait, mw, leading, true⟩ f s
        (Miovo.Ev.fire tm.due tm)).log = s.log ++ [(tm.due, a)] ∧
    (Miovo.dFlush ⟨wait, mw, leading, true⟩ f t s).gov.lastArgs
        = (Miovo.dStep ⟨wait, mw, leading, true⟩ f s
            (Miovo.Ev.fire tm.due tm)).gov.lastArgs ∧
    (Miovo.dFlush ⟨wait, mw, leading, true⟩ f t s).gov.lastCallTime
        = (Miovo.dStep ⟨wait, mw, leading, true⟩ f s
            (Miovo.Ev.fire tm.due tm)).gov.lastCallTime ∧
    (Miovo.dFlush ⟨wait, mw, leading, true⟩ f t s).gov.result
        = (Miovo.dStep ⟨wait, mw, leading, true⟩ f s
            (Miovo.Ev.fire tm.due tm)).gov.result ∧
    (Miovo.dFlush ⟨wait, mw, leading, true⟩ f t s).gov.timeout
        = (Miovo.dStep ⟨wait, mw, leading, true⟩ f s
            (Miovo.Ev.fire tm.due tm)).gov.timeout ∧
    (Miovo.dFlush ⟨wait, mw, leading, true⟩ f t s).gov.maxTimeout
        = (Miovo.dStep ⟨wait, mw, leading, true⟩ f s
            (Miovo.Ev.fire tm.due tm)).gov.maxTimeout ∧
    (Miovo.dFlush ⟨wait, mw, leading, true⟩ f t s).gov.lastInvokeTime
        = t ∧
    (Miovo.dStep ⟨wait, mw, leading, true⟩ f s
        (Miovo.Ev.fire tm.due tm)).gov.lastInvokeTime = tm.due ∧
    tm ∈ (Miovo.dFlush ⟨wait, mw, leading, true⟩ f t s).live := by
  set cfg : Miovo.DebCfg := ⟨wait, mw, leading, true⟩ with hcfg
  have hflush : Miovo.dFlush cfg f t s = Miovo.trailingEdge cfg f t s := by
    unfold Miovo.dFlush
    rw [if_neg]
    rw [hto]
    simp
  have hfire : Miovo.dStep cfg f s (Miovo.Ev.fire tm.due tm)
      = Miovo.trailingEdge cfg f tm.due
          { s with live := Miovo.eraseFirst s.live tm } := by
    rw [show Miovo.dStep cfg f s (Miovo.Ev.fire tm.due tm)
        = if tm ∈ s.live ∧ tm.due ≤ tm.due then
            (match tm.kind with
             | Miovo.TKind.primary => Miovo.timerExpired cfg f tm.due
                 { s with live := Miovo.eraseFirst s.live tm }
             | Miovo.TKind.escape => Miovo.maxTimerExpired cfg f tm.due
                 { s with live := Miovo.eraseFirst s.live tm })
          else s from rfl]
    rw [if_pos ⟨hmem, le_refl tm.due⟩, hk]
    unfold Miovo.timerExpired
    rw [if_pos hsi]
  rw [hflush, hfire, Miovo.trailingEdge_invoke_eq cfg rfl f t s a hargs,
    Miovo.trailingEdge_invoke_eq cfg rfl f tm.due
      { s with live := Miovo.eraseFirst s.live tm } a hargs]
  refine ⟨rfl, rfl, rfl, rfl, rfl, rfl, rfl, rfl, rfl, ?_⟩
  rcases hmt : s.gov.maxTimeout with _ | mt
  · exact hmem
  · refine Miovo.mem_eraseFirst_of_ne s.live tm mt ?_ hmem
    intro heq
    have hke := hmtk mt hmt
    rw [← heq, hk] at hke
    exact Miovo.TKind.noConfusion hke

/-- Witness for the amended C8 theorem at the concrete pending state after
one call at t=0 (wait 10, defaults), flushing at t=3. -/
theorem C8_witness :
    (Miovo.dFlush ⟨10, none, false, true⟩ (fun x : Int => x) 3
        (Miovo.dRun ⟨10, none, false, true⟩ (fun x : Int => x) Miovo.dInit
          [Miovo.Ev.call 0 7])).log
      = (Miovo.dRun ⟨10, none, false, true⟩ (fun x : Int => x) Miovo.dInit
          [Miovo.Ev.call 0 7]).log ++ [(3, 7)] :=
  (C8_flush_vs_waiting 10 none false (fun x => x)
    (Miovo.dRun ⟨10, none, false, true⟩ (fun x : Int => x) Miovo.dInit
      [Miovo.Ev.call 0 7])
    ⟨10, Miovo.TKind.primary⟩ 7 3 rfl (by decide) rfl rfl
    (fun mt h => by
      rw [show (Miovo.dRun ⟨10, none, false, true⟩ (fun x : Int => x)
          Miovo.dInit [Miovo.Ev.call 0 7]).gov.maxTimeout = none from rfl]
        at h
      exact Option.noConfusion h)
    rfl).1

namespace Miovo

/-- The default debounce configuration of claim C2: leading=false,
trailing=true, no maxWait. -/
def burstCfg (wait : Int) : DebCfg := ⟨wait, none, false, true⟩

/-- The pending-burst invariant: after a call at moment t with arguments a
(all gaps so far below wait), exactly one primary timer is live, due in
(t, t+wait], the wrapper tracks it, the pending arguments are those of the
last call, and nothing has been invoked. -/
def C2Inv (wait t : Int) (a : A) (s : Sys A R) : Prop :=
  ∃ d : Int, s.gov.timeout = some ⟨d, TKind.primary⟩ ∧
    s.live = [⟨d, TKind.primary⟩] ∧ t < d ∧ d ≤ t + wait ∧
    s.gov.maxTimeout = none ∧ s.gov.lastArgs = some a ∧
    s.gov.lastCallTime = some t ∧ s.log = []

/-- shouldInvoke is false strictly inside the quiet window (no maxWait). -/
theorem shouldInvoke_eq_false (cfg : DebCfg) (hmw : cfg.maxWait = none)
    (g : Gov A R) (t c : Int) (hc : g.lastCallTime = some c)
    (h0 : c ≤ t) (h1 : t - c < cfg.wait) :
    shouldInvoke cfg g t = false := by
  unfold shouldInvoke
  rw [hc, hmw]
  simp only [Option.getD_some, Option.isNone_some, Bool.false_or,
    Bool.or_eq_false_iff, decide_eq_false_iff_not, not_le, not_lt]
  exact ⟨⟨h1, by omega⟩, trivial⟩

/-- shouldInvoke is true once the gap since the last call reaches wait (no
maxWait). -/
theorem shouldInvoke_eq_true_of_gap (cfg : DebCfg) (hmw : cfg.maxWait = none)
    (g : Gov A R) (t c : Int) (hc : g.lastCallTime = some c)
    (h1 : cfg.wait ≤ t - c) :
    shouldInvoke cfg g t = true := by
  unfold shouldInvoke
  rw [hc, hmw]
  simp only [Option.getD_some, Option.isNone_some, Bool.false_or,
    Bool.or_eq_true, decide_eq_true_eq]
  omega

/-- remainingWait without maxWait. -/
theorem remainingWait_eq (cfg : DebCfg) (hmw : cfg.maxWait = none)
    (g : Gov A R) (t c : Int) (hc : g.lastCallTime = some c) :
    remainingWait cfg g t = cfg.wait - (t - c) := by
  unfold remainingWait
  rw [hc, hmw]
  simp [Option.getD_some]

/-- A call that is not invoking while a timer is tracked only updates the
pending arguments and the last-call time. -/
theorem debounced_pending (cfg : DebCfg) (f : A → R) (t' : Int) (a' : A)
    (s : Sys A R) (hsi : shouldInvoke cfg s.gov t' = false) (tm : Timer)
    (hto : s.gov.timeout = some tm) :
    debounced cfg f t' a' s =
      { s with gov := { s.gov with
          lastArgs := some a',
          lastCallTime := some t' } } := by
  unfold debounced
  rw [hsi]
  dsimp only
  rw [hto]
  simp

/-- Delivering the single live timer before moment t consumes it in one
fireDue step. -/
theorem fireDue_succ_fire (cfg : DebCfg) (f : A → R) (fuel : Nat) (t' : Int)
    (s : Sys A R) (tm : Timer) (hlv : s.live = [tm]) (h : tm.due ≤ t') :
    fireDue cfg f (fuel + 1) t' s
      = fireDue cfg f fuel t' (dStep cfg f s (Ev.fire tm.due tm)) := by
  conv_lhs => rw [fireDue]
  rw [hlv]
  simp only [earliest]
  rw [if_pos h]

/-- A single live timer due after moment t is not delivered by fireDue. -/
theorem fireDue_succ_skip (cfg : DebCfg) (f : A → R) (fuel : Nat) (t' : Int)
    (s : Sys A R) (tm : Timer) (hlv : s.live = [tm]) (h : ¬ tm.due ≤ t') :
    fireDue cfg f (fuel + 1) t' s = s := by
  conv_lhs => rw [fireDue]
  rw [hlv]
  simp only [earliest]
  rw [if_neg h]

/-- fireDue does nothing on a state with no live timers. -/
theorem fireDue_empty (cfg : DebCfg) (f : A → R) (fuel : Nat) (t' : Int)
    (s : Sys A R) (hlv : s.live = []) :
    fireDue cfg f fuel t' s = s := by
  cases fuel with
  | zero => rfl
  | succ n =>
      conv_lhs => rw [fireDue]
      rw [hlv]
      simp only [earliest]

end Miovo

namespace Miovo

/-- One more burst call (gap in [0, wait)) preserves the pending-burst
invariant under punctual timer delivery. -/
theorem C2Inv_step (wait : Int) (hw : 0 < wait) (f : A → R) (t t' : Int)
    (a a' : A) (s : Sys A R) (h : C2Inv wait t a s) (h0 : t ≤ t')
    (h1 : t' < t + wait) :
    C2Inv wait t' a' (debounced (burstCfg wait) f t' a'
      (fireDue (burstCfg wait) f 3 t' s)) := by
  obtain ⟨d, hto, hlv, hd1, hd2, hmt, ha, hc, hlog⟩ := h
  have hcw : (burstCfg wait).wait = wait := rfl
  by_cases hdt : d ≤ t'
  · rw [show (3 : Nat) = 2 + 1 from rfl,
      fireDue_succ_fire (burstCfg wait) f 2 t' s ⟨d, TKind.primary⟩ hlv hdt]
    have hfire : dStep (burstCfg wait) f s
        (Ev.fire (Timer.mk d TKind.primary).due ⟨d, TKind.primary⟩)
        = schedPrimary (d + remainingWait (burstCfg wait) s.gov d)
            { s with live := eraseFirst s.live ⟨d, TKind.primary⟩ } := by
      simp only [dStep]
      rw [if_pos ⟨by rw [hlv]; exact List.mem_cons_self _ _,
        le_refl (Timer.mk d TKind.primary).due⟩]
      unfold timerExpired
      rw [shouldInvoke_eq_false (burstCfg wait) rfl s.gov d t hc
        (by omega) (by rw [hcw]; omega)]
      simp
    rw [hfire, remainingWait_eq (burstCfg wait) rfl s.gov d t hc, hcw]
    have hlv2 : (schedPrimary (d + (wait - (d - t)))
        { s with live := eraseFirst s.live ⟨d, TKind.primary⟩ }).live
        = [⟨d + (wait - (d - t)), TKind.primary⟩] := by
      simp [schedPrimary, hlv, eraseFirst]
    rw [show (2 : Nat) = 1 + 1 from rfl,
      fireDue_succ_skip (burstCfg wait) f 1 t' _ _ hlv2 (by
        show ¬ (Timer.mk (d + (wait - (d - t))) TKind.primary).due ≤ t'
        dsimp only
        omega)]
    rw [debounced_pending (burstCfg wait) f t' a'
      (schedPrimary (d + (wait - (d - t)))
        { s with live := eraseFirst s.live ⟨d, TKind.primary⟩ })
      (shouldInvoke_eq_false (burstCfg wait) rfl
        (schedPrimary (d + (wait - (d - t)))
          { s with live := eraseFirst s.live ⟨d, TKind.primary⟩ }).gov
        t' t
        (show (schedPrimary (d + (wait - (d - t)))
          { s with live := eraseFirst s.live ⟨d, TKind.primary⟩
            }).gov.lastCallTime = some t from hc)
        h0 (by rw [hcw]; omega))
      ⟨d + (wait - (d - t)), TKind.primary⟩ rfl]
    exact ⟨d + (wait - (d - t)), rfl, hlv2, by omega, by omega, hmt, rfl,
      rfl, hlog⟩
  · rw [show (3 : Nat) = 2 + 1 from rfl,
      fireDue_succ_skip (burstCfg wait) f 2 t' s ⟨d, TKind.primary⟩ hlv hdt]
    rw [debounced_pending (burstCfg wait) f t' a' s
      (shouldInvoke_eq_false (burstCfg wait) rfl s.gov t' t hc h0
        (by rw [hcw]; omega)) ⟨d, TKind.primary⟩ hto]
    exact ⟨d, hto, hlv, by omega, by omega, hmt, rfl, rfl, hlog⟩

end Miovo

namespace Miovo

/-- The first call from idle establishes the pending-burst invariant. -/
theorem C2Inv_base (wait : Int) (hw : 0 < wait) (f : A → R) (t0 : Int)
    (a0 : A) :
    C2Inv wait t0 a0 (debounced (burstCfg wait) f t0 a0
      (dInit : Sys A R)) :=
  ⟨t0 + wait, rfl, rfl, by omega, by omega, rfl, rfl, rfl, rfl⟩

/-- Running the remaining burst calls keeps the invariant, ending at the
last call of the burst. -/
theorem C2Inv_runCalls (wait : Int) (hw : 0 < wait) (f : A → R)
    (rest : List (Int × A)) (t : Int) (a : A) (s : Sys A R)
    (h : C2Inv wait t a s)
    (hch : List.Chain (fun p q => p.1 ≤ q.1 ∧ q.1 < p.1 + wait)
      (t, a) rest) :
    C2Inv wait (rest.getLastD (t, a)).1 (rest.getLastD (t, a)).2
      (runCalls (burstCfg wait) f 3 rest s) := by
  induction rest generalizing t a s with
  | nil => exact h
  | cons p rest ih =>
      obtain ⟨⟨hg1, hg2⟩, hch2⟩ := List.chain_cons.mp hch
      rcases p with ⟨t2, a2⟩
      rw [runCalls, List.getLastD_cons]
      exact ih t2 a2 _ (C2Inv_step wait hw f t t2 a a2 s h hg1 hg2) hch2

/-- One drain step on a single live timer. -/
theorem drain_succ (cfg : DebCfg) (f : A → R) (fuel : Nat) (s : Sys A R)
    (tm : Timer) (hlv : s.live = [tm]) :
    drain cfg f (fuel + 1) s
      = drain cfg f fuel (dStep cfg f s (Ev.fire tm.due tm)) := by
  conv_lhs => rw [drain]
  rw [hlv]
  simp only [earliest]

/-- Draining a state with no live timers does nothing. -/
theorem drain_empty (cfg : DebCfg) (f : A → R) (fuel : Nat) (s : Sys A R)
    (hlv : s.live = []) : drain cfg f fuel s = s := by
  cases fuel with
  | zero => rfl
  | succ n =>
      conv_lhs => rw [drain]
      rw [hlv]
      simp only [earliest]

/-- When the pending timer is due at or past the quiet deadline, its
delivery invokes the trailing edge with the pending arguments. -/
theorem C2_drain_fire_invoke (wait : Int) (f : A → R) (fuel : Nat)
    (t d : Int) (a : A) (s : Sys A R)
    (hto : s.gov.timeout = some ⟨d, TKind.primary⟩)
    (hlv : s.live = [⟨d, TKind.primary⟩])
    (hmt : s.gov.maxTimeout = none) (ha : s.gov.lastArgs = some a)
    (hc : s.gov.lastCallTime = some t) (hlog : s.log = [])
    (hdw : wait ≤ d - t) :
    (drain (burstCfg wait) f (fuel + 1) s).log = [(d, a)] := by
  have hcw : (burstCfg wait).wait = wait := rfl
  rw [drain_succ _ f fuel s _ hlv]
  have hstep : dStep (burstCfg wait) f s
      (Ev.fire (Timer.mk d TKind.primary).due ⟨d, TKind.primary⟩)
      = trailingEdge (burstCfg wait) f d
          { s with live := eraseFirst s.live ⟨d, TKind.primary⟩ } := by
    simp only [dStep]
    rw [if_pos ⟨by rw [hlv]; exact List.mem_cons_self _ _,
      le_refl (Timer.mk d TKind.primary).due⟩]
    unfold timerExpired
    rw [shouldInvoke_eq_true_of_gap (burstCfg wait) rfl s.gov d t hc
      (by rw [hcw]; omega)]
    simp
  rw [hstep, trailingEdge_invoke_eq (burstCfg wait) rfl f d
    { s with live := eraseFirst s.live ⟨d, TKind.primary⟩ } a
    (show ({ s with live := eraseFirst s.live ⟨d, TKind.primary⟩
      } : Sys A R).gov.lastArgs = some a from ha)]
  rw [drain_empty _ f fuel _ (by
    show (match ({ s with live := eraseFirst s.live ⟨d, TKind.primary⟩
        } : Sys A R).gov.maxTimeout with
      | some mt => eraseFirst ({ s with
          live := eraseFirst s.live ⟨d, TKind.primary⟩ } : Sys A R).live mt
      | none => ({ s with
          live := eraseFirst s.live ⟨d, TKind.primary⟩ } : Sys A R).live)
      = ([] : List Timer)
    dsimp only
    rw [hmt]
    simp [hlv, eraseFirst])]
  dsimp only
  rw [hlog]
  rfl

/-- Draining the pending-burst state invokes exactly once, with the last
arguments, at exactly the last call moment plus wait. -/
theorem C2_drain (wait : Int) (hw : 0 < wait) (f : A → R) (t : Int) (a : A)
    (s : Sys A R) (h : C2Inv wait t a s) :
    (drain (burstCfg wait) f 3 s).log = [(t + wait, a)] := by
  obtain ⟨d, hto, hlv, hd1, hd2, hmt, ha, hc, hlog⟩ := h
  have hcw : (burstCfg wait).wait = wait := rfl
  by_cases hdw : wait ≤ d - t
  · have hd : d = t + wait := by omega
    subst hd
    exact C2_drain_fire_invoke wait f 2 t (t + wait) a s hto hlv hmt ha hc
      hlog hdw
  · rw [show (3 : Nat) = 2 + 1 from rfl, drain_succ _ f 2 s _ hlv]
    have hstep : dStep (burstCfg wait) f s
        (Ev.fire (Timer.mk d TKind.primary).due ⟨d, TKind.primary⟩)
        = schedPrimary (d + remainingWait (burstCfg wait) s.gov d)
            { s with live := eraseFirst s.live ⟨d, TKind.primary⟩ } := by
      simp only [dStep]
      rw [if_pos ⟨by rw [hlv]; exact List.mem_cons_self _ _,
        le_refl (Timer.mk d TKind.primary).due⟩]
      unfold timerExpired
      rw [shouldInvoke_eq_false (burstCfg wait) rfl s.gov d t hc
        (by omega) (by rw [hcw]; omega)]
      simp
    rw [hstep, remainingWait_eq (burstCfg wait) rfl s.gov d t hc, hcw]
    have heq : d + (wait - (d - t)) = t + wait := by omega
    rw [heq]
    refine C2_drain_fire_invoke wait f 1 t (t + wait) a _ rfl ?_ hmt ha hc
      hlog (by omega)
    simp [schedPrimary, hlv, eraseFirst]

end Miovo

/-- C2: for every burst — one or more calls with consecutive gaps in
[0, wait) — on a debounced wrapper with leading=false, trailing=true and
no maxWait, under punctual timer delivery the wrapped function is invoked
exactly once, with the arguments of the last call, at exactly wait time
units after the last call. -/
theorem C2_burst_single_invocation (wait : Int) (hw : 0 < wait)
    (f : Int → Int) (t0 a0 : Int) (rest : List (Int × Int))
    (hch : List.Chain (fun p q => p.1 ≤ q.1 ∧ q.1 < p.1 + wait)
      (t0, a0) rest) :
    (Miovo.runPunctual (Miovo.burstCfg wait) f 3 ((t0, a0) :: rest)).log
      = [((rest.getLastD (t0, a0)).1 + wait,
          (rest.getLastD (t0, a0)).2)] := by
  unfold Miovo.runPunctual
  rw [Miovo.runCalls, Miovo.fireDue_empty _ f 3 t0 Miovo.dInit rfl]
  exact Miovo.C2_drain wait hw f _ _ _
    (Miovo.C2Inv_runCalls wait hw f rest t0 a0 _
      (Miovo.C2Inv_base wait hw f t0 a0) hch)

/-- Witness for C2: wait 10, calls at t=0 (args 5) and t=3 (args 9); the
only invocation is at t=13 with arguments 9. -/
theorem C2_witness :
    (0 : Int) < 10 ∧
    (Miovo.runPunctual (Miovo.burstCfg 10) (fun x : Int => x) 3
        [(0, 5), (3, 9)]).log = [(13, 9)] :=
  ⟨by norm_num, by
    have h := C2_burst_single_invocation 10 (by norm_num) (fun x => x) 0 5
      [(3, 9)] (List.Chain.cons ⟨by norm_num, by norm_num⟩ List.Chain.nil)
    simpa using h⟩

namespace Miovo

/-- The debounce configuration of claim C5 instantiated at wait = 2 so that
the calls arriving every 1 time unit arrive every wait/2: maxWait = W,
default edges. -/
def cfg5 (W : Int) : DebCfg := ⟨2, some W, false, true⟩

/-- The infinite call pressure of claim C5, cut at n calls: a call at every
integer moment 0, 1, ..., n-1, with the moment as argument. -/
def c5calls (n : Nat) : List (Int × Int) :=
  (List.range n).map (fun k : Nat => ((k : Int), (k : Int)))

/-- shouldInvoke is false inside the quiet window while the time since the
last invocation is below maxWait. -/
theorem shouldInvoke_eq_false_mw (cfg : DebCfg) (mw : Int)
    (hmw : cfg.maxWait = some mw) (g : Gov A R) (t c : Int)
    (hc : g.lastCallTime = some c) (h0 : c ≤ t) (h1 : t - c < cfg.wait)
    (h2 : t - g.lastInvokeTime < mw) :
    shouldInvoke cfg g t = false := by
  unfold shouldInvoke
  rw [hc, hmw]
  simp only [Option.getD_some, Option.isNone_some, Bool.false_or,
    Bool.or_eq_false_iff, decide_eq_false_iff_not, not_le, not_lt]
  exact ⟨⟨h1, by omega⟩, by omega⟩

/-- shouldInvoke is true once the time since the last invocation reaches
maxWait. -/
theorem shouldInvoke_eq_true_mw (cfg : DebCfg) (mw : Int)
    (hmw : cfg.maxWait = some mw) (g : Gov A R) (t : Int)
    (h2 : mw ≤ t - g.lastInvokeTime) :
    shouldInvoke cfg g t = true := by
  unfold shouldInvoke
  rw [hmw]
  simp only [Bool.or_eq_true, decide_eq_true_eq]
  right
  omega

/-- remainingWait with maxWait configured. -/
theorem remainingWait_eq_mw (cfg : DebCfg) (mw : Int)
    (hmw : cfg.maxWait = some mw) (g : Gov A R) (t c : Int)
    (hc : g.lastCallTime = some c) :
    remainingWait cfg g t
      = min (cfg.wait - (t - c)) (mw - (t - g.lastInvokeTime)) := by
  unfold remainingWait
  rw [hc, hmw]
  simp [Option.getD_some]

/-- The earliest of two timers. -/
theorem earliest_pair (x y : Timer) :
    earliest [x, y] = if x.due ≤ y.due then some x else some y := by
  simp [earliest]

/-- fireDue delivers the earliest live timer when it is due. -/
theorem fireDue_fire_of_earliest (cfg : DebCfg) (f : A → R) (fuel : Nat)
    (t' : Int) (s : Sys A R) (tm : Timer)
    (he : earliest s.live = some tm) (h : tm.due ≤ t') :
    fireDue cfg f (fuel + 1) t' s
      = fireDue cfg f fuel t' (dStep cfg f s (Ev.fire tm.due tm)) := by
  conv_lhs => rw [fireDue]
  rw [he]
  simp only []
  rw [if_pos h]

/-- fireDue does nothing when the earliest live timer is not yet due. -/
theorem fireDue_skip_of_earliest (cfg : DebCfg) (f : A → R) (fuel : Nat)
    (t' : Int) (s : Sys A R) (tm : Timer)
    (he : earliest s.live = some tm) (h : ¬ tm.due ≤ t') :
    fireDue cfg f (fuel + 1) t' s = s := by
  conv_lhs => rw [fireDue]
  rw [he]
  simp only []
  rw [if_neg h]

/-- With trailing enabled and pending arguments, maxTimerExpired runs the
trailing edge. -/
theorem maxTimerExpired_invoke (cfg : DebCfg) (ht : cfg.trailing = true)
    (f : A → R) (t : Int) (s : Sys A R) (a : A)
    (ha : s.gov.lastArgs = some a) :
    maxTimerExpired cfg f t s = trailingEdge cfg f t s := by
  unfold maxTimerExpired
  rw [ha, ht]
  simp

/-- A non-invoking call from a state with no tracked timer schedules a
fresh primary timer. -/
theorem debounced_idle_schedule (cfg : DebCfg) (f : A → R) (t' : Int)
    (a' : A) (s : Sys A R) (hsi : shouldInvoke cfg s.gov t' = false)
    (hto : s.gov.timeout = none) :
    debounced cfg f t' a' s
      = schedPrimary (t' + cfg.wait)
          { s with gov := { s.gov with
              lastArgs := some a',
              lastCallTime := some t' } } := by
  unfold debounced
  rw [hsi]
  dsimp only
  rw [hto]
  simp

end Miovo

namespace Miovo

/-- A timer returned by earliest is live. -/
theorem earliest_mem (l : List Timer) (tm : Timer)
    (he : earliest l = some tm) : tm ∈ l := by
  induction l generalizing tm with
  | nil => cases he
  | cons x xs ih =>
      rw [earliest] at he
      rcases h2 : earliest xs with _ | tm2 <;> rw [h2] at he <;>
        dsimp only at he
      · injection he with h
        rw [← h]
        exact List.mem_cons_self _ _
      · by_cases hle : x.due ≤ tm2.due
        · rw [if_pos hle] at he
          injection he with h
          rw [← h]
          exact List.mem_cons_self _ _
        · rw [if_neg hle] at he
          injection he with h
          rw [← h]
          exact List.mem_cons_of_mem _ (ih tm2 h2)

/-- earliest of a singleton. -/
theorem earliest_single (tm : Timer) : earliest [tm] = some tm := by
  simp [earliest]

/-- fireDue does nothing when no live timer is due yet. -/
theorem fireDue_skip_all (cfg : DebCfg) (f : A → R) (fuel : Nat) (t' : Int)
    (s : Sys A R) (h : ∀ tm ∈ s.live, t' < tm.due) :
    fireDue cfg f fuel t' s = s := by
  cases fuel with
  | zero => rfl
  | succ n =>
      rw [fireDue]
      rcases he : earliest s.live with _ | tm
      · rfl
      · dsimp only
        rw [if_neg (not_le.mpr (h tm (earliest_mem s.live tm he)))]

/-- The timers tracked by the C5 invariant, by phase: before the first
invocation the escape timer (due W) is live next to the rolling primary
timer; afterwards only the rolling primary timer remains, and right at an
invocation boundary its deadline is two units out instead of one. -/
def C5Timers (W : Int) (k : Nat) (q r : Int) (s : Sys Int Int) : Prop :=
  (q = 0 ∧ k ≤ 1 ∧ s.gov.timeout = some ⟨2, TKind.primary⟩ ∧
    s.live = [⟨2, TKind.primary⟩, ⟨W, TKind.escape⟩]) ∨
  (q = 0 ∧ 2 ≤ k ∧ s.gov.timeout = some ⟨(k : Int) + 1, TKind.primary⟩ ∧
    s.live = [⟨W, TKind.escape⟩, ⟨(k : Int) + 1, TKind.primary⟩]) ∨
  (1 ≤ q ∧ r = 0 ∧ ∃ d : Int, (d = (k : Int) + 1 ∨ d = (k : Int) + 2) ∧
    s.gov.timeout = some ⟨d, TKind.primary⟩ ∧
    s.live = [⟨d, TKind.primary⟩]) ∨
  (1 ≤ q ∧ 1 ≤ r ∧ s.gov.timeout = some ⟨(k : Int) + 1, TKind.primary⟩ ∧
    s.live = [⟨(k : Int) + 1, TKind.primary⟩])

/-- The C5 invariant after the call at moment k under calls at every
integer moment: writing k = W*q + r with 0 ≤ r < W, exactly q invocations
have happened, at moments W, 2W, ..., qW, each with the arguments of the
call just before it, and the governor fields are as after the source's
processing of that call. -/
def C5Inv (W : Int) (k : Nat) (s : Sys Int Int) : Prop :=
  ∃ q r : Int, (k : Int) = W * q + r ∧ 0 ≤ r ∧ r < W ∧ 0 ≤ q ∧
    s.gov.lastArgs = some (k : Int) ∧
    s.gov.lastCallTime = some (k : Int) ∧
    s.gov.lastInvokeTime = W * q ∧
    s.log = (List.range q.toNat).map
      (fun i : Nat => (W * ((i : Int) + 1), W * ((i : Int) + 1) - 1)) ∧
    s.gov.maxTimeout
      = (if q = 0 then some ⟨W, TKind.escape⟩ else none) ∧
    C5Timers W k q r s

end Miovo

namespace Miovo

theorem C5Inv_step (W : Int) (hW : 3 ≤ W) (f : Int → Int) (k : Nat)
    (s : Sys Int Int) (h : C5Inv W k s) :
    C5Inv W (k + 1)
      (debounced (cfg5 W) f (((k + 1 : Nat) : Int)) (((k + 1 : Nat) : Int))
        (fireDue (cfg5 W) f 3 (((k + 1 : Nat) : Int)) s)) := by
  obtain ⟨q, r, hkqr, hr0, hrW, hq0, ha, hc, hLI, hlog, hmx, htim⟩ := h
  have hcw : (cfg5 W).wait = 2 := rfl
  rcases htim with ⟨hq, hk1, hto, hlv⟩ | ⟨hq, hk2, hto, hlv⟩ |
    ⟨hq, hr, d, hd, hto, hlv⟩ | ⟨hq, hr, hto, hlv⟩
  · -- before the first timer event: k = 0 or k = 1
    subst hq
    rw [mul_zero] at hLI
    interval_cases k
    · -- k = 0: nothing due at t=1
      show C5Inv W 1 (debounced (cfg5 W) f 1 1 (fireDue (cfg5 W) f 3 1 s))
      rw [fireDue_skip_all (cfg5 W) f 3 1 s (by
        intro tm hm
        rw [hlv] at hm
        simp only [List.mem_cons, List.not_mem_nil, or_false] at hm
        rcases hm with rfl | rfl
        · norm_num
        · dsimp only
          omega)]
      rw [debounced_pending (cfg5 W) f 1 1 s
        (shouldInvoke_eq_false_mw (cfg5 W) W rfl s.gov 1 0
          (show s.gov.lastCallTime = some 0 from hc) (by norm_num)
          (by rw [hcw]; norm_num) (by rw [hLI]; omega))
        ⟨2, TKind.primary⟩ hto]
      refine ⟨0, 1, by push_cast; ring, by norm_num, by omega, le_refl 0,
        by push_cast; rfl, by push_cast; rfl, by rw [mul_zero]; exact hLI,
        by simpa using hlog, by simpa using hmx,
        Or.inl ⟨rfl, by norm_num, hto, hlv⟩⟩
    · -- k = 1: the primary timer due 2 fires at t=2 and moves to due 3
      show C5Inv W 2 (debounced (cfg5 W) f 2 2 (fireDue (cfg5 W) f 3 2 s))
      have hc1 : s.gov.lastCallTime = some 1 := hc
      have he : earliest s.live = some ⟨2, TKind.primary⟩ := by
        rw [hlv, earliest_pair, if_pos (by dsimp only; omega)]
      rw [fireDue_fire_of_earliest (cfg5 W) f 2 2 s ⟨2, TKind.primary⟩ he
        (by norm_num)]
      have hstep : dStep (cfg5 W) f s
          (Ev.fire (Timer.mk 2 TKind.primary).due ⟨2, TKind.primary⟩)
          = schedPrimary (2 + remainingWait (cfg5 W) s.gov 2)
              { s with live := eraseFirst s.live ⟨2, TKind.primary⟩ } := by
        simp only [dStep]
        rw [if_pos ⟨by rw [hlv]; exact List.mem_cons_self _ _,
          le_refl (Timer.mk 2 TKind.primary).due⟩]
        unfold timerExpired
        rw [shouldInvoke_eq_false_mw (cfg5 W) W rfl s.gov 2 1 hc1
          (by norm_num) (by rw [hcw]; norm_num) (by rw [hLI]; omega)]
        simp
      have hdue : 2 + remainingWait (cfg5 W) s.gov 2 = 3 := by
        rw [remainingWait_eq_mw (cfg5 W) W rfl s.gov 2 1 hc1, hLI, hcw]
        omega
      rw [hstep, hdue]
      have hlv2 : (schedPrimary 3
          { s with live := eraseFirst s.live ⟨2, TKind.primary⟩ }).live
          = [⟨W, TKind.escape⟩, ⟨3, TKind.primary⟩] := by
        simp [schedPrimary, hlv, eraseFirst]
      rw [fireDue_skip_all (cfg5 W) f 2 2 _ (by
        intro tm hm
        rw [hlv2] at hm
        simp only [List.mem_cons, List.not_mem_nil, or_false] at hm
        rcases hm with rfl | rfl
        · dsimp only
          omega
        · norm_num)]
      rw [debounced_pending (cfg5 W) f 2 2 _
        (shouldInvoke_eq_false_mw (cfg5 W) W rfl _ 2 1
          (show (schedPrimary 3 { s with
              live := eraseFirst s.live ⟨2, TKind.primary⟩
            }).gov.lastCallTime = some 1 from hc1) (by norm_num)
          (by rw [hcw]; norm_num)
          (by
            show (2 : Int) - s.gov.lastInvokeTime < W
            rw [hLI]
            omega))
        ⟨3, TKind.primary⟩ rfl]
      refine ⟨0, 2, by push_cast; ring, by norm_num, by omega, le_refl 0,
        by push_cast; rfl, by push_cast; rfl, by rw [mul_zero]; exact hLI,
        by simpa using hlog, by simpa using hmx,
        Or.inr (Or.inl ⟨rfl, by norm_num, by push_cast; rfl,
          by push_cast; exact hlv2⟩)⟩
  · -- q = 0, 2 ≤ k: rolling primary next to the escape timer
    subst hq
    rw [mul_zero] at hLI
    rw [mul_zero, zero_add] at hkqr
    have hmxE : s.gov.maxTimeout = some ⟨W, TKind.escape⟩ := by
      simpa using hmx
    have hcast : ((k + 1 : Nat) : Int) = (k : Int) + 1 := by push_cast; ring
    rw [hcast]
    by_cases hlt : (k : Int) + 1 < W
    · -- (k+1) < W: primary fires and rolls forward one unit
      have he : earliest s.live = some ⟨(k : Int) + 1, TKind.primary⟩ := by
        rw [hlv, earliest_pair, if_neg (by dsimp only; omega)]
      rw [fireDue_fire_of_earliest (cfg5 W) f 2 ((k : Int) + 1) s
        ⟨(k : Int) + 1, TKind.primary⟩ he (by dsimp only; omega)]
      have hstep : dStep (cfg5 W) f s
          (Ev.fire (Timer.mk ((k : Int) + 1) TKind.primary).due
            ⟨(k : Int) + 1, TKind.primary⟩)
          = schedPrimary ((k : Int) + 1
                + remainingWait (cfg5 W) s.gov ((k : Int) + 1))
              { s with live := eraseFirst s.live ⟨(k : Int) + 1, TKind.primary⟩ } := by
        simp only [dStep]
        rw [if_pos ⟨by
            rw [hlv]
            exact List.mem_cons_of_mem _ (List.mem_cons_self _ _),
          le_refl (Timer.mk ((k : Int) + 1) TKind.primary).due⟩]
        unfold timerExpired
        rw [shouldInvoke_eq_false_mw (cfg5 W) W rfl s.gov ((k : Int) + 1)
          (k : Int) hc (by omega) (by rw [hcw]; omega)
          (by rw [hLI]; omega)]
        simp
      have hdue : (k : Int) + 1
          + remainingWait (cfg5 W) s.gov ((k : Int) + 1)
          = (k : Int) + 2 := by
        rw [remainingWait_eq_mw (cfg5 W) W rfl s.gov ((k : Int) + 1)
          (k : Int) hc, hLI, hcw]
        omega
      rw [hstep, hdue]
      have hlv2 : (schedPrimary ((k : Int) + 2)
          { s with live := eraseFirst s.live ⟨(k : Int) + 1, TKind.primary⟩ }).live
          = [⟨W, TKind.escape⟩, ⟨(k : Int) + 2, TKind.primary⟩] := by
        simp [schedPrimary, hlv, eraseFirst]
      rw [fireDue_skip_all (cfg5 W) f 2 ((k : Int) + 1) _ (by
        intro tm hm
        rw [hlv2] at hm
        simp only [List.mem_cons, List.not_mem_nil, or_false] at hm
        rcases hm with rfl | rfl <;> dsimp only <;> omega)]
      rw [debounced_pending (cfg5 W) f ((k : Int) + 1) ((k : Int) + 1) _
        (shouldInvoke_eq_false_mw (cfg5 W) W rfl _ ((k : Int) + 1)
          (k : Int)
          (show (schedPrimary ((k : Int) + 2)
              { s with live := eraseFirst s.live ⟨(k : Int) + 1, TKind.primary⟩ }).gov.lastCallTime = some (k : Int) from hc) (by omega)
          (by rw [hcw]; omega)
          (by
            show ((k : Int) + 1) - s.gov.lastInvokeTime < W
            rw [hLI]
            omega))
        ⟨(k : Int) + 2, TKind.primary⟩ rfl]
      refine ⟨0, (k : Int) + 1, by push_cast; ring, by omega, by omega,
        le_refl 0, by push_cast; rfl, by push_cast; rfl,
        by rw [mul_zero]; exact hLI, by simpa using hlog,
        by simpa using hmxE,
        Or.inr (Or.inl ⟨rfl, by omega, by push_cast; rfl,
          by push_cast; exact hlv2⟩)⟩
    · -- (k+1) = W: the escape timer fires first and invokes
      have hkW : (k : Int) + 1 = W := by omega
      have he : earliest s.live = some ⟨W, TKind.escape⟩ := by
        rw [hlv, earliest_pair, if_pos (by dsimp only; omega)]
      rw [fireDue_fire_of_earliest (cfg5 W) f 2 ((k : Int) + 1) s
        ⟨W, TKind.escape⟩ he (by dsimp only; omega)]
      have hstepE : dStep (cfg5 W) f s
          (Ev.fire (Timer.mk W TKind.escape).due ⟨W, TKind.escape⟩)
          = trailingEdge (cfg5 W) f W
              { s with live := eraseFirst s.live ⟨W, TKind.escape⟩ } := by
        simp only [dStep]
        rw [if_pos ⟨by rw [hlv]; exact List.mem_cons_self _ _,
          le_refl (Timer.mk W TKind.escape).due⟩]
        exact maxTimerExpired_invoke (cfg5 W) rfl f W _ (k : Int) ha
      have hR1 : trailingEdge (cfg5 W) f W
          { s with live := eraseFirst s.live ⟨W, TKind.escape⟩ }
          = ⟨⟨none, none, none, some (f (k : Int)), some (k : Int), W⟩,
              [⟨(k : Int) + 1, TKind.primary⟩], [(W, (k : Int))]⟩ := by
        rw [trailingEdge_invoke_eq (cfg5 W) rfl f W
          { s with live := eraseFirst s.live ⟨W, TKind.escape⟩ } (k : Int)
          (show ({ s with live := eraseFirst s.live ⟨W, TKind.escape⟩
            } : Sys Int Int).gov.lastArgs = some (k : Int) from ha)]
        simp only [hmxE, hlv, hlog, hc, eraseFirst, Timer.mk.injEq]
        simp [hkW]
      rw [hstepE, hR1]
      rw [fireDue_fire_of_earliest (cfg5 W) f 1 ((k : Int) + 1) _
        ⟨(k : Int) + 1, TKind.primary⟩
        (earliest_single ⟨(k : Int) + 1, TKind.primary⟩)
        (le_refl (Timer.mk ((k : Int) + 1) TKind.primary).due)]
      have hstepP : dStep (cfg5 W) f
          (⟨⟨none, none, none, some (f (k : Int)), some (k : Int), W⟩,
            [⟨(k : Int) + 1, TKind.primary⟩],
            [(W, (k : Int))]⟩ : Sys Int Int)
          (Ev.fire (Timer.mk ((k : Int) + 1) TKind.primary).due
            ⟨(k : Int) + 1, TKind.primary⟩)
          = schedPrimary ((k : Int) + 2)
              (⟨⟨none, none, none, some (f (k : Int)), some (k : Int), W⟩,
                [], [(W, (k : Int))]⟩ : Sys Int Int) := by
        simp only [dStep]
        rw [if_pos ⟨List.mem_cons_self _ _,
          le_refl (Timer.mk ((k : Int) + 1) TKind.primary).due⟩]
        unfold timerExpired
        rw [shouldInvoke_eq_false_mw (cfg5 W) W rfl _ ((k : Int) + 1)
          (k : Int) rfl (by omega) (by rw [hcw]; omega)
          (by
            show ((k : Int) + 1) - W < W
            omega)]
        have : (k : Int) + 1 + remainingWait (cfg5 W)
            (⟨none, none, none, some (f (k : Int)), some (k : Int), W⟩ :
              Gov Int Int) ((k : Int) + 1) = (k : Int) + 2 := by
          rw [remainingWait_eq_mw (cfg5 W) W rfl _ ((k : Int) + 1)
            (k : Int) rfl, hcw]
          dsimp only
          omega
        rw [this]
        simp [eraseFirst, schedPrimary]
      rw [hstepP]
      rw [fireDue_skip_all (cfg5 W) f 1 ((k : Int) + 1) _ (by
        intro tm hm
        simp only [schedPrimary, List.nil_append, List.mem_cons,
          List.not_mem_nil, or_false] at hm
        subst hm
        dsimp only
        omega)]
      rw [debounced_pending (cfg5 W) f ((k : Int) + 1) ((k : Int) + 1) _
        (shouldInvoke_eq_false_mw (cfg5 W) W rfl _ ((k : Int) + 1)
          (k : Int) rfl (by omega) (by rw [hcw]; omega)
          (by
            show ((k : Int) + 1) - W < W
            omega))
        ⟨(k : Int) + 2, TKind.primary⟩ rfl]
      refine ⟨1, 0, by push_cast; rw [mul_one]; omega, le_refl 0, by omega,
        by norm_num, by push_cast; rfl, by push_cast; rfl,
        by rw [mul_one]; exact hkW.symm ▸ rfl, ?_,
        by rw [if_neg one_ne_zero]; rfl,
        Or.inr (Or.inr (Or.inl ⟨le_refl 1, rfl,
          ⟨(k : Int) + 2, Or.inl (by push_cast; ring), rfl, rfl⟩⟩))⟩
      show ([(W, (k : Int))] : List (Int × Int))
          = (List.range (1 : Int).toNat).map
            (fun i => (W * ((i : Int) + 1), W * ((i : Int) + 1) - 1))
      norm_num [List.range_succ]
      omega
  · -- q ≥ 1, r = 0: just after an invocation boundary
    subst hr
    rw [add_zero] at hkqr
    have hmxN : s.gov.maxTimeout = none := by
      rw [hmx, if_neg (by omega)]
    have hLIk : s.gov.lastInvokeTime = (k : Int) := hLI.trans hkqr.symm
    have hcast : ((k + 1 : Nat) : Int) = (k : Int) + 1 := by push_cast; ring
    rw [hcast]
    rcases hd with rfl | rfl
    · -- deadline one out: it fires and rolls to two out
      have he : earliest s.live = some ⟨(k : Int) + 1, TKind.primary⟩ := by
        rw [hlv]
        exact earliest_single _
      rw [fireDue_fire_of_earliest (cfg5 W) f 2 ((k : Int) + 1) s
        ⟨(k : Int) + 1, TKind.primary⟩ he
        (le_refl (Timer.mk ((k : Int) + 1) TKind.primary).due)]
      have hstep : dStep (cfg5 W) f s
          (Ev.fire (Timer.mk ((k : Int) + 1) TKind.primary).due
            ⟨(k : Int) + 1, TKind.primary⟩)
          = schedPrimary ((k : Int) + 1
                + remainingWait (cfg5 W) s.gov ((k : Int) + 1))
              { s with live := eraseFirst s.live ⟨(k : Int) + 1, TKind.primary⟩ } := by
        simp only [dStep]
        rw [if_pos ⟨by rw [hlv]; exact List.mem_cons_self _ _,
          le_refl (Timer.mk ((k : Int) + 1) TKind.primary).due⟩]
        unfold timerExpired
        rw [shouldInvoke_eq_false_mw (cfg5 W) W rfl s.gov ((k : Int) + 1)
          (k : Int) hc (by omega) (by rw [hcw]; omega)
          (by rw [hLIk]; omega)]
        simp
      have hdue : (k : Int) + 1
          + remainingWait (cfg5 W) s.gov ((k : Int) + 1)
          = (k : Int) + 2 := by
        rw [remainingWait_eq_mw (cfg5 W) W rfl s.gov ((k : Int) + 1)
          (k : Int) hc, hLIk, hcw]
        omega
      rw [hstep, hdue]
      have hlv2 : (schedPrimary ((k : Int) + 2)
          { s with live := eraseFirst s.live ⟨(k : Int) + 1, TKind.primary⟩ }).live
          = [⟨(k : Int) + 2, TKind.primary⟩] := by
        simp [schedPrimary, hlv, eraseFirst]
      rw [fireDue_skip_all (cfg5 W) f 2 ((k : Int) + 1) _ (by
        intro tm hm
        rw [hlv2] at hm
        simp only [List.mem_cons, List.not_mem_nil, or_false] at hm
        subst hm
        dsimp only
        omega)]
      rw [debounced_pending (cfg5 W) f ((k : Int) + 1) ((k : Int) + 1) _
        (shouldInvoke_eq_false_mw (cfg5 W) W rfl _ ((k : Int) + 1)
          (k : Int)
          (show (schedPrimary ((k : Int) + 2)
              { s with live := eraseFirst s.live ⟨(k : Int) + 1, TKind.primary⟩ }).gov.lastCallTime = some (k : Int) from hc)
          (by omega) (by rw [hcw]; omega)
          (by
            show ((k : Int) + 1) - s.gov.lastInvokeTime < W
            rw [hLIk]
            omega))
        ⟨(k : Int) + 2, TKind.primary⟩ rfl]
      refine ⟨q, 1, by push_cast; linarith [hkqr], by norm_num, by omega,
        hq0, by push_cast; rfl, by push_cast; rfl, hLI, hlog, hmx,
        Or.inr (Or.inr (Or.inr ⟨hq, le_refl 1, by push_cast; rfl,
          by push_cast; exact hlv2⟩))⟩
    · -- deadline two out: nothing fires yet
      rw [fireDue_skip_all (cfg5 W) f 3 ((k : Int) + 1) s (by
        intro tm hm
        rw [hlv] at hm
        simp only [List.mem_cons, List.not_mem_nil, or_false] at hm
        subst hm
        dsimp only
        omega)]
      rw [debounced_pending (cfg5 W) f ((k : Int) + 1) ((k : Int) + 1) s
        (shouldInvoke_eq_false_mw (cfg5 W) W rfl s.gov ((k : Int) + 1)
          (k : Int) hc (by omega) (by rw [hcw]; omega)
          (by rw [hLIk]; omega))
        ⟨(k : Int) + 2, TKind.primary⟩ hto]
      refine ⟨q, 1, by push_cast; linarith [hkqr], by norm_num, by omega,
        hq0, by push_cast; rfl, by push_cast; rfl, hLI, hlog, hmx,
        Or.inr (Or.inr (Or.inr ⟨hq, le_refl 1, ?_, ?_⟩))⟩
      · show s.gov.timeout
          = some ⟨((k + 1 : Nat) : Int) + 1, TKind.primary⟩
        rw [show ((k + 1 : Nat) : Int) + 1 = (k : Int) + 2 from by
          push_cast; ring]
        exact hto
      · show s.live = [⟨((k + 1 : Nat) : Int) + 1, TKind.primary⟩]
        rw [show ((k + 1 : Nat) : Int) + 1 = (k : Int) + 2 from by
          push_cast; ring]
        exact hlv
  · -- q ≥ 1, 1 ≤ r: inside a period
    have hmxN : s.gov.maxTimeout = none := by
      rw [hmx, if_neg (by omega)]
    have hcast : ((k + 1 : Nat) : Int) = (k : Int) + 1 := by push_cast; ring
    rw [hcast]
    have hWq : W * q = (k : Int) - r := by linarith [hkqr]
    by_cases hrW1 : r + 1 < W
    · -- the time since the last invocation stays below W: roll forward
      have he : earliest s.live = some ⟨(k : Int) + 1, TKind.primary⟩ := by
        rw [hlv]
        exact earliest_single _
      rw [fireDue_fire_of_earliest (cfg5 W) f 2 ((k : Int) + 1) s
        ⟨(k : Int) + 1, TKind.primary⟩ he
        (le_refl (Timer.mk ((k : Int) + 1) TKind.primary).due)]
      have hstep : dStep (cfg5 W) f s
          (Ev.fire (Timer.mk ((k : Int) + 1) TKind.primary).due
            ⟨(k : Int) + 1, TKind.primary⟩)
          = schedPrimary ((k : Int) + 1
                + remainingWait (cfg5 W) s.gov ((k : Int) + 1))
              { s with live := eraseFirst s.live ⟨(k : Int) + 1, TKind.primary⟩ } := by
        simp only [dStep]
        rw [if_pos ⟨by rw [hlv]; exact List.mem_cons_self _ _,
          le_refl (Timer.mk ((k : Int) + 1) TKind.primary).due⟩]
        unfold timerExpired
        rw [shouldInvoke_eq_false_mw (cfg5 W) W rfl s.gov ((k : Int) + 1)
          (k : Int) hc (by omega) (by rw [hcw]; omega)
          (by rw [hLI, hWq]; omega)]
        simp
      have hdue : (k : Int) + 1
          + remainingWait (cfg5 W) s.gov ((k : Int) + 1)
          = (k : Int) + 2 := by
        rw [remainingWait_eq_mw (cfg5 W) W rfl s.gov ((k : Int) + 1)
          (k : Int) hc, hLI, hWq, hcw]
        omega
      rw [hstep, hdue]
      have hlv2 : (schedPrimary ((k : Int) + 2)
          { s with live := eraseFirst s.live ⟨(k : Int) + 1, TKind.primary⟩ }).live
          = [⟨(k : Int) + 2, TKind.primary⟩] := by
        simp [schedPrimary, hlv, eraseFirst]
      rw [fireDue_skip_all (cfg5 W) f 2 ((k : Int) + 1) _ (by
        intro tm hm
        rw [hlv2] at hm
        simp only [List.mem_cons, List.not_mem_nil, or_false] at hm
        subst hm
        dsimp only
        omega)]
      rw [debounced_pending (cfg5 W) f ((k : Int) + 1) ((k : Int) + 1) _
        (shouldInvoke_eq_false_mw (cfg5 W) W rfl _ ((k : Int) + 1)
          (k : Int)
          (show (schedPrimary ((k : Int) + 2)
              { s with live := eraseFirst s.live ⟨(k : Int) + 1, TKind.primary⟩ }).gov.lastCallTime = some (k : Int) from hc)
          (by omega) (by rw [hcw]; omega)
          (by
            show ((k : Int) + 1) - s.gov.lastInvokeTime < W
            rw [hLI, hWq]
            omega))
        ⟨(k : Int) + 2, TKind.primary⟩ rfl]
      refine ⟨q, r + 1, by push_cast; linarith [hkqr], by omega, by omega,
        hq0, by push_cast; rfl, by push_cast; rfl, hLI, hlog, hmx,
        Or.inr (Or.inr (Or.inr ⟨hq, by omega, by push_cast; rfl,
          by push_cast; exact hlv2⟩))⟩
    · -- r = W - 1: the delivery reaches maxWait and invokes
      have hrW2 : r + 1 = W := by omega
      have he : earliest s.live = some ⟨(k : Int) + 1, TKind.primary⟩ := by
        rw [hlv]
        exact earliest_single _
      rw [fireDue_fire_of_earliest (cfg5 W) f 2 ((k : Int) + 1) s
        ⟨(k : Int) + 1, TKind.primary⟩ he
        (le_refl (Timer.mk ((k : Int) + 1) TKind.primary).due)]
      have hstep : dStep (cfg5 W) f s
          (Ev.fire (Timer.mk ((k : Int) + 1) TKind.primary).due
            ⟨(k : Int) + 1, TKind.primary⟩)
          = trailingEdge (cfg5 W) f ((k : Int) + 1)
              { s with live := eraseFirst s.live ⟨(k : Int) + 1, TKind.primary⟩ } := by
        simp only [dStep]
        rw [if_pos ⟨by rw [hlv]; exact List.mem_cons_self _ _,
          le_refl (Timer.mk ((k : Int) + 1) TKind.primary).due⟩]
        unfold timerExpired
        rw [shouldInvoke_eq_true_mw (cfg5 W) W rfl s.gov ((k : Int) + 1)
          (by rw [hLI, hWq]; omega)]
        simp
      have hR : trailingEdge (cfg5 W) f ((k : Int) + 1)
          { s with live := eraseFirst s.live ⟨(k : Int) + 1, TKind.primary⟩ }
          = ⟨⟨none, none, none, some (f (k : Int)), some (k : Int),
              (k : Int) + 1⟩, [],
              s.log ++ [((k : Int) + 1, (k : Int))]⟩ := by
        rw [trailingEdge_invoke_eq (cfg5 W) rfl f ((k : Int) + 1)
          { s with live := eraseFirst s.live ⟨(k : Int) + 1, TKind.primary⟩ }
          (k : Int)
          (show ({ s with live := eraseFirst s.live ⟨(k : Int) + 1, TKind.primary⟩ } : Sys Int Int).gov.lastArgs = some (k : Int) from ha)]
        simp [hmxN, hlv, hc, eraseFirst]
      rw [hstep, hR]
      rw [fireDue_empty (cfg5 W) f 2 ((k : Int) + 1) _ rfl]
      rw [debounced_idle_schedule (cfg5 W) f ((k : Int) + 1) ((k : Int) + 1)
        _
        (shouldInvoke_eq_false_mw (cfg5 W) W rfl _ ((k : Int) + 1)
          (k : Int) rfl (by omega) (by rw [hcw]; omega)
          (by
            show ((k : Int) + 1) - ((k : Int) + 1) < W
            omega))
        rfl]
      rw [hcw]
      refine ⟨q + 1, 0, ?_, le_refl 0, by omega, by omega,
        by push_cast; rfl, by push_cast; rfl, ?_, ?_,
        by rw [if_neg (by omega)]; rfl,
        Or.inr (Or.inr (Or.inl ⟨by omega, rfl,
          ⟨(k : Int) + 1 + 2, Or.inr (by push_cast; ring), rfl, rfl⟩⟩))⟩
      · push_cast
        have hx : W * (q + 1) = W * q + W := by ring
        linarith [hkqr]
      · show (k : Int) + 1 = W * (q + 1)
        have hx : W * (q + 1) = W * q + W := by ring
        linarith [hkqr]
      · show s.log ++ [((k : Int) + 1, (k : Int))]
            = (List.range (q + 1).toNat).map
              (fun i : Nat => (W * ((i : Int) + 1), W * ((i : Int) + 1) - 1))
        rw [hlog, show ((q + 1).toNat) = q.toNat + 1 from by omega,
          List.range_succ, List.map_append]
        congr 1
        simp only [List.map_cons, List.map_nil, List.cons.injEq, and_true,
          Prod.mk.injEq]
        have hcq : ((q.toNat : Nat) : Int) = q := Int.toNat_of_nonneg hq0
        rw [hcq]
        have hx : W * (q + 1) = W * q + W := by ring
        exact ⟨by linarith [hkqr], by linarith [hkqr]⟩

end Miovo

namespace Miovo

/-- Running a call schedule in two stages. -/
theorem runCalls_append (cfg : DebCfg) (f : A → R) (fuel : Nat)
    (l1 l2 : List (Int × A)) (s : Sys A R) :
    runCalls cfg f fuel (l1 ++ l2) s
      = runCalls cfg f fuel l2 (runCalls cfg f fuel l1 s) := by
  induction l1 generalizing s with
  | nil => rfl
  | cons p l1 ih =>
      rcases p with ⟨t, a⟩
      rw [List.cons_append, runCalls, runCalls, ih]

/-- The first call of the C5 pressure establishes the invariant. -/
theorem C5Inv_base (W : Int) (hW : 3 ≤ W) (f : Int → Int) :
    C5Inv W 0 (runCalls (cfg5 W) f 3 (c5calls 1) dInit) := by
  rw [show c5calls 1 = [((0 : Int), (0 : Int))] from rfl, runCalls,
    fireDue_empty (cfg5 W) f 3 0 dInit rfl, runCalls]
  have hstate : debounced (cfg5 W) f 0 0 dInit
      = ⟨⟨some ⟨2, TKind.primary⟩, some ⟨W, TKind.escape⟩, some 0, none,
          some 0, 0⟩, [⟨2, TKind.primary⟩, ⟨W, TKind.escape⟩], []⟩ := by
    norm_num [debounced, shouldInvoke, leadingEdge, schedPrimary,
      schedEscape, dInit, cfg5]
  rw [hstate]
  exact ⟨0, 0, by norm_num, le_refl 0, by omega, le_refl 0, rfl, rfl,
    by norm_num, rfl, rfl, Or.inl ⟨rfl, by norm_num, rfl, rfl⟩⟩

/-- The invariant holds after every call of the C5 pressure. -/
theorem C5Inv_run (W : Int) (hW : 3 ≤ W) (f : Int → Int) (n : Nat) :
    C5Inv W n (runCalls (cfg5 W) f 3 (c5calls (n + 1)) dInit) := by
  induction n with
  | zero => exact C5Inv_base W hW f
  | succ n ih =>
      have hsplit : c5calls (n + 1 + 1)
          = c5calls (n + 1)
            ++ [(((n + 1 : Nat) : Int), ((n + 1 : Nat) : Int))] := by
        unfold c5calls
        rw [List.range_succ, List.map_append]
        rfl
      rw [hsplit, runCalls_append, runCalls, runCalls]
      exact C5Inv_step W hW f n
        (runCalls (cfg5 W) f 3 (c5calls (n + 1)) dInit) ih

end Miovo

/-- C5 (instantiated at wait 2, calls every 1 = wait/2 time unit): for a
debounced wrapper with maxWait = W (any W ≥ 3, default edges), under calls
arriving every wait/2 forever (here: m full periods of call pressure), the
wrapped function is invoked at least once in every interval of length W
inside the covered horizon — the log contains an invocation time in
[x, x + W] for every 0 ≤ x with x + W inside the horizon. -/
theorem C5_maxWait_window (W : Int) (hW : 3 ≤ W) (m : Nat) (x : Int)
    (hx0 : 0 ≤ x) (hxm : x + W ≤ W * m) :
    ∃ p ∈ (Miovo.runCalls (Miovo.cfg5 W) (fun v : Int => v) 3
        (Miovo.c5calls (W.toNat * m + 1)) Miovo.dInit).log,
      x ≤ p.1 ∧ p.1 ≤ x + W := by
  obtain ⟨q, r, hkqr, hr0, hrW, hq0, ha, hc, hLI, hlog, hmx, htim⟩ :=
    Miovo.C5Inv_run W hW (fun v => v) (W.toNat * m)
  have hkInt : ((W.toNat * m : Nat) : Int) = W * m := by
    push_cast
    rw [Int.toNat_of_nonneg (by omega)]
  set j := x / W with hj
  have hjd : W * j + x % W = x := by
    rw [hj]
    exact Int.ediv_add_emod x W
  have hr0x : 0 ≤ x % W := Int.emod_nonneg x (by omega)
  have hrWx : x % W < W := Int.emod_lt_of_pos x (by omega)
  have hj0 : 0 ≤ j := Int.ediv_nonneg hx0 (by omega)
  have hWj1 : W * (j + 1) = W * j + W := by ring
  have hx1 : x ≤ W * (j + 1) := by linarith
  have hx2 : W * (j + 1) ≤ x + W := by linarith
  have hkm : W * q + r = W * m := by rw [← hkqr, hkInt]
  have hjq : j + 1 ≤ q := by
    by_contra hcon
    push_neg at hcon
    have hq_le : q ≤ j := by omega
    have hmul : W * q ≤ W * j := mul_le_mul_of_nonneg_left hq_le (by omega)
    linarith
  refine ⟨(W * (j + 1), W * (j + 1) - 1), ?_, hx1, hx2⟩
  rw [hlog]
  apply List.mem_map.mpr
  refine ⟨j.toNat, List.mem_range.mpr (by omega), ?_⟩
  have hcj : ((j.toNat : Nat) : Int) = j := Int.toNat_of_nonneg hj0
  rw [hcj]

/-- Witness for C5 at W = 5, two periods of pressure, window [3, 8]. -/
theorem C5_witness :
    ∃ p ∈ (Miovo.runCalls (Miovo.cfg5 5) (fun v : Int => v) 3
        (Miovo.c5calls ((5 : Int).toNat * 2 + 1)) Miovo.dInit).log,
      (3 : Int) ≤ p.1 ∧ p.1 ≤ 3 + 5 :=
  C5_maxWait_window 5 (by norm_num) 2 3 (by norm_num) (by norm_num)
